import Mathlib

/-!
Shallow embedding of the expense-tracker ledger core
(`src/apps-script-library/src/Database.js`, `ExpenseTracker.js`, `Code.js`).

Modelling conventions:
* a sheet row becomes a `Movement` record with the fields of the `COLUMNS`
  table of `Code.js` (0-based column indices are replaced by field names);
* the sheet's data rows (rows 2..lastRow) become a `List Movement`;
* JavaScript numbers are embedded as `ℚ`; cell contents that may be blank
  are `Option` types (`none` models an empty cell / `null`);
* a currency-value cell is a `CellValue`: a number, the failed-conversion
  sentinel (a `#NUM!` error cell), or blank;
* fallible operations return `Except`, paired with the ledger state reached
  before the throw where the source mutates the sheet before throwing.

`CurrencyConversionService` and the source-provider services are code of the
repository that is not under `src/`; the definitions that stand in for them
are modelled from the spec and say so in their doc comments.
-/

namespace ET

/-- A currency-value cell: a number, the failed-conversion sentinel
(`#NUM!` error, spec section 4.4), or a blank cell. -/
inductive CellValue where
  | num (q : ℚ)
  | err
  | blank
deriving DecidableEq

/-- One ledger row, named after the `COLUMNS` table of `Code.js`
(`type` is rendered `mtype`). -/
structure Movement where
  timestamp : Option Int
  direction : Option String
  mtype : Option String
  amount : ℚ
  currency : Option String
  source_description : Option String
  user_description : Option String
  comment : Option String
  ai_comment : Option String
  category : Option String
  status : Option String
  settled_movement_id : Option Int
  clp_value : CellValue
  usd_value : CellValue
  gbp_value : CellValue
  original_amount : Option ℚ
  id : Option Int
  source : Option String
  source_id : Option String
  accounting_system_id : Option String
deriving DecidableEq

/-- `STATUS.SETTLED` of `Code.js`. -/
def STATUS_SETTLED : String := "Settled"

/-- `STATUS.PENDING_DIRECT_SETTLEMENT` of `Code.js`. -/
def STATUS_PENDING : String := "Pending Settlement"

/-- `MOVEMENT_TYPES.DEBIT` of `Code.js`. -/
def TYPE_DEBIT : String := "Debit"

/-- `MOVEMENT_TYPES.DEBIT_REPAYMENT` of `Code.js`. -/
def TYPE_DEBIT_REPAYMENT : String := "Debit Repayment"

/-- `DIRECTIONS.NEUTRAL` of `Code.js`. -/
def DIRECTION_NEUTRAL : String := "Neutral"

/-- `SOURCES.MONZO` of `Code.js`. -/
def SOURCE_MONZO : String := "monzo"

/-- JavaScript strict equality `row[COLUMNS.ID] === id` between an id cell and
a lookup key: it holds only when both sides are numbers and equal (a blank
cell never strictly equals a number or another blank read as a different
JS value). -/
def idMatches (cell key : Option Int) : Bool :=
  match cell, key with
  | some a, some b => a == b
  | _, _ => false

/-- The row scan shared by `Database.updateMovement*`, `splitMovement`,
`fixMovementCurrencyConversion`: `allMovements.findIndex(m => m[ID] === id)`
returning the first matching row. -/
def findById (l : List Movement) (key : Option Int) : Option Movement :=
  l.find? (fun m => idMatches m.id key)

/-- In-place mutation of the first row whose id matches, as done by the
`setValue` calls at `sheetRowIndex = movementRowIndex + 2`; when no row
matches, the operation logs and does nothing. -/
def modifyById : List Movement → Option Int → (Movement → Movement) → List Movement
  | [], _, _ => []
  | m :: rest, key, f =>
    if idMatches m.id key then f m :: rest else m :: modifyById rest key f

/-- `Database.idExists` (Database.js 157-166): scans the id column for a
strict-equality match. -/
def idExists (l : List Movement) (key : Option Int) : Bool :=
  l.any (fun m => idMatches m.id key)

/-- `Database.addMovement` (Database.js 96-104): throws on a duplicate id,
otherwise appends the row. -/
def addMovement (l : List Movement) (m : Movement) : Except String (List Movement) :=
  if idExists l m.id then
    Except.error "Movement ID already exists in the database."
  else
    Except.ok (l ++ [m])

/-- One step of the max-id scan of `Database.getNextId`:
`if (id && !isNaN(id) && id > maxId) maxId = id`. -/
def maxIdStep (acc : Int) (o : Option Int) : Int :=
  match o with
  | some i => if i ≠ 0 ∧ acc < i then i else acc
  | none => acc

/-- `Database.getNextId` (Database.js 129-150): 1 when no data rows exist,
otherwise the fold of `maxIdStep` over the id column, plus one. -/
def getNextId (l : List Movement) : Int :=
  if l.isEmpty then 1
  else (l.foldl (fun acc m => maxIdStep acc m.id) 0) + 1

/-- A batch element of `Database.addMovementsBatch`: the row together with
the numeric sort key obtained from its `ts` string. `ts = some t` models a
timestamp string with `Date.parse(ts) = t`; `ts = none` models a missing
(falsy) timestamp, which the comparator keys as `0`. A string on which
`Date.parse` returns `NaN` makes the JS comparator inconsistent and the
sort order implementation-defined (ECMA-262, Array.prototype.sort), so such
batches are outside this embedding. -/
structure BatchItem where
  ts : Option Int
  row : Movement
deriving DecidableEq

/-- The comparator key `a.ts ? Date.parse(a.ts) : 0` (Database.js 113-114). -/
def jsTsKey (it : BatchItem) : Int := it.ts.getD 0

/-- Ordering used by the batch sort: ascending comparator key. -/
def tsLe (a b : BatchItem) : Prop := jsTsKey a ≤ jsTsKey b

instance : DecidableRel tsLe := fun a b => inferInstanceAs (Decidable (jsTsKey a ≤ jsTsKey b))

instance : IsTotal BatchItem tsLe := ⟨fun a b => le_total (jsTsKey a) (jsTsKey b)⟩

instance : IsTrans BatchItem tsLe := ⟨fun _ _ _ h1 h2 => le_trans h1 h2⟩

/-- The per-item inserts of `addMovementsBatch`: each row goes through
`addMovement`; an exception escapes the `forEach`, leaving the rows already
appended in place. -/
def addBatchSorted : List Movement → List BatchItem → Except String Unit × List Movement
  | l, [] => (Except.ok (), l)
  | l, it :: rest =>
    match addMovement l it.row with
    | Except.error e => (Except.error e, l)
    | Except.ok l2 => addBatchSorted l2 rest

/-- `Database.addMovementsBatch` (Database.js 110-123): stable sort by the
timestamp key (Array.prototype.sort is stable and, for the consistent
comparator, any stable sort yields the same list), then individual
`addMovement` calls in sorted order. -/
def addMovementsBatchE (l : List Movement) (items : List BatchItem) :
    Except String Unit × List Movement :=
  addBatchSorted l (List.insertionSort tsLe items)

/-- JavaScript truthiness of a string cell: non-null and non-empty. -/
def truthyStr (o : Option String) : Bool :=
  match o with
  | some s => s ≠ ""
  | none => false

/-- The `||` fallback `splitInfo.clean_description || originalMovement[USER_DESCRIPTION]`
(Database.js 406). -/
def jsOrStr (a b : Option String) : Option String :=
  if truthyStr a then a else b

/-- The three currency-value cells of one row. -/
structure CurrencyTriple where
  clp : CellValue
  usd : CellValue
  gbp : CellValue
deriving DecidableEq

/-- Modelled from the spec (section 4.4, the service source is not under
`src/`): `CurrencyConversionService.splitCurrencyValues` computes, for each
reporting currency, `partValues[c] = originalValues[c] * (partAmount /
originalAmount)`; a non-numeric cell stays non-numeric. -/
def splitCurrencyValue (originalAmount partAmount : ℚ) : CellValue → CellValue
  | CellValue.num q => CellValue.num (q * (partAmount / originalAmount))
  | v => v

/-- `splitCurrencyValues` applied to the three reporting currencies. -/
def splitCurrencyValues (originalAmount partAmount : ℚ) (t : CurrencyTriple) :
    CurrencyTriple :=
  { clp := splitCurrencyValue originalAmount partAmount t.clp
    usd := splitCurrencyValue originalAmount partAmount t.usd
    gbp := splitCurrencyValue originalAmount partAmount t.gbp }

/-- Modelled from the spec (section 4.4): `isFailedConversion` recognizes the
failed-conversion sentinel cell. -/
def isFailedConversion (v : CellValue) : Bool := v == CellValue.err

/-- The split parameters handed to `Database.splitMovement` /
`splitExpenseForRecategorization` by `ExpenseTracker.processUncategorizedMovements`. -/
structure SplitInfo where
  split_amount : ℚ
  split_category : Option String
  split_description : Option String
  clean_description : Option String
deriving DecidableEq

/-- Printing of an id into the `ai_comment` cross-references. -/
def idText : Option Int → String
  | some i => toString i
  | none => "undefined"

/-- The in-place rewrite of the original row as the personal portion
(Database.js 310-323). -/
def splitMovementOrig2 (orig : Movement) (info : SplitInfo) (nid : Int) : Movement :=
  { orig with
    amount := info.split_amount
    category := info.split_category
    user_description := info.clean_description
    comment := some ""
    ai_comment := some ("Split into #" ++ toString nid)
    original_amount := some orig.amount
    clp_value := splitCurrencyValue orig.amount info.split_amount orig.clp_value
    usd_value := splitCurrencyValue orig.amount info.split_amount orig.usd_value
    gbp_value := splitCurrencyValue orig.amount info.split_amount orig.gbp_value }

/-- The new neutral pending-debit row for the shared portion
(Database.js 325-341). -/
def splitMovementShared (orig : Movement) (info : SplitInfo) (oid : Option Int)
    (nid : Int) : Movement :=
  { orig with
    id := some nid
    amount := orig.amount - info.split_amount
    category := info.split_category
    user_description := info.split_description
    direction := some DIRECTION_NEUTRAL
    mtype := some TYPE_DEBIT
    status := some STATUS_PENDING
    comment := some ""
    ai_comment := some ("Split from #" ++ idText oid)
    original_amount := some orig.amount
    clp_value := splitCurrencyValue orig.amount (orig.amount - info.split_amount) orig.clp_value
    usd_value := splitCurrencyValue orig.amount (orig.amount - info.split_amount) orig.usd_value
    gbp_value := splitCurrencyValue orig.amount (orig.amount - info.split_amount) orig.gbp_value }

/-- `Database.splitMovement` (Database.js 267-349), the shared-expense split:
locate the original row (null when absent), take `nextId` and
`remaining = amount - split_amount` (no validation of `split_amount`),
rewrite the original row in place as the personal portion with
proportionally split currency values, then `addMovement` a copied row as the
neutral pending debit for the shared portion. The pair carries the thrown
exception (if `addMovement` throws) together with the sheet state already
mutated before the throw. -/
def splitMovementE (l : List Movement) (oid : Option Int) (info : SplitInfo) :
    Except String (Option Int) × List Movement :=
  match findById l oid with
  | none => (Except.ok none, l)
  | some orig =>
    let nid := getNextId l
    let l2 := modifyById l oid (fun _ => splitMovementOrig2 orig info nid)
    match addMovement l2 (splitMovementShared orig info oid nid) with
    | Except.error e => (Except.error e, l2)
    | Except.ok l3 => (Except.ok (some nid), l3)

/-- The in-place rewrite of the original row to the remaining, uncategorized
amount (Database.js 403-414). -/
def splitRecatOrig2 (orig : Movement) (info : SplitInfo) (nid : Int) : Movement :=
  { orig with
    amount := orig.amount - info.split_amount
    user_description := jsOrStr info.clean_description orig.user_description
    category := none
    comment := some ""
    ai_comment := some ("Split into #" ++ toString nid)
    original_amount := some orig.amount
    clp_value := splitCurrencyValue orig.amount (orig.amount - info.split_amount) orig.clp_value
    usd_value := splitCurrencyValue orig.amount (orig.amount - info.split_amount) orig.usd_value
    gbp_value := splitCurrencyValue orig.amount (orig.amount - info.split_amount) orig.gbp_value }

/-- The new uncategorized row for the split-off amount
(Database.js 416-428). -/
def splitRecatNew (orig : Movement) (info : SplitInfo) (oid : Option Int)
    (nid : Int) : Movement :=
  { orig with
    id := some nid
    amount := info.split_amount
    user_description := info.split_description
    category := none
    comment := some ""
    ai_comment := some ("Split from #" ++ idText oid)
    original_amount := some orig.amount
    clp_value := splitCurrencyValue orig.amount info.split_amount orig.clp_value
    usd_value := splitCurrencyValue orig.amount info.split_amount orig.usd_value
    gbp_value := splitCurrencyValue orig.amount info.split_amount orig.gbp_value }

/-- `Database.splitExpenseForRecategorization` (Database.js 359-436): locate
the original row; validate `0 < split_amount < amount` (aborting with null
and no mutation otherwise); rewrite the original row to the remaining
amount, uncategorized, with proportional currency values; `addMovement` a
new uncategorized row for the split-off amount. -/
def splitExpenseForRecategorizationE (l : List Movement) (oid : Option Int)
    (info : SplitInfo) : Except String (Option Int) × List Movement :=
  match findById l oid with
  | none => (Except.ok none, l)
  | some orig =>
    let nid := getNextId l
    if orig.amount ≤ info.split_amount ∨ info.split_amount ≤ 0 then
      (Except.ok none, l)
    else
      let l2 := modifyById l oid (fun _ => splitRecatOrig2 orig info nid)
      match addMovement l2 (splitRecatNew orig info oid nid) with
      | Except.error e => (Except.error e, l2)
      | Except.ok l3 => (Except.ok (some nid), l3)

/-- `Database.updateMovementCategory` (Database.js 211-227). -/
def updateMovementCategory (l : List Movement) (key : Option Int)
    (c : Option String) : List Movement :=
  modifyById l key (fun m => { m with category := c })

/-- The validated classifier result consumed by the ledger
(`GoogleAIStudioService.parseCategoryAnalysisResponse`, which is treated as
the external-collaborator boundary; `split_amount` is a number whenever
`needs_split` is true). -/
structure Analysis where
  category : Option String
  needs_split : Bool
  split_type : Option String
  split_amount : Option ℚ
  split_description : Option String
  split_category : Option String
  clean_description : Option String
deriving DecidableEq

/-- `Database.updateMovementWithAnalysis` (Database.js 234-259): set the
category; when the movement is not being split and `clean_description` is
truthy, also overwrite `user_description` and clear `comment`. -/
def updateMovementWithAnalysis (l : List Movement) (key : Option Int)
    (ar : Analysis) : List Movement :=
  modifyById l key (fun m =>
    let m1 := { m with category := ar.category }
    if ¬ ar.needs_split ∧ truthyStr ar.clean_description then
      { m1 with user_description := ar.clean_description, comment := some "" }
    else m1)

/-- `Database.updateMovementSettledId` (Database.js 466-483). -/
def updateMovementSettledId (l : List Movement) (key : Option Int)
    (sid : Int) : List Movement :=
  modifyById l key (fun m => { m with settled_movement_id := some sid })

/-- `Database.updateMovementStatus` (Database.js 490-507). -/
def updateMovementStatus (l : List Movement) (key : Option Int)
    (s : Option String) : List Movement :=
  modifyById l key (fun m => { m with status := s })

/-- `Database.updateMovementWithSplitwiseInfo` (Database.js 514-532). -/
def updateMovementWithSplitwiseInfo (l : List Movement) (key : Option Int)
    (sw : String) : List Movement :=
  modifyById l key (fun m =>
    { m with accounting_system_id := some sw, status := some "In Splitwise" })

/-- Executable model of JavaScript `String.prototype.trim`: strip leading
and trailing whitespace. (`String.trim` of the Lean core library does not
reduce in the kernel, so the embedding trims over the character list.) -/
def jsTrim (s : String) : String :=
  ⟨((s.data.dropWhile Char.isWhitespace).reverse.dropWhile
      Char.isWhitespace).reverse⟩

/-- `Database.getMovementsNeedingCategoryAnalysis` (Database.js 197-204):
rows with a non-blank `user_description` and a blank `category`
(`!category || category.trim() === ''`). -/
def hasText (o : Option String) : Bool :=
  match o with
  | some s => jsTrim s ≠ ""
  | none => false

/-- `Database.getMovementsNeedingCategoryAnalysis` (Database.js 197-204). -/
def getMovementsNeedingCategoryAnalysis (l : List Movement) : List Movement :=
  l.filter (fun m => hasText m.user_description && ! hasText m.category)

/-- `Database.getMovementsPendingDirectSettlement` (Database.js 453-459):
debit rows with status `Pending Settlement`. -/
def getMovementsPendingDirectSettlement (l : List Movement) : List Movement :=
  l.filter (fun m => m.mtype == some TYPE_DEBIT && m.status == some STATUS_PENDING)

/-- `Database.getMovementsWithFailedCurrencyConversion` (Database.js 538-552). -/
def getMovementsWithFailedCurrencyConversion (l : List Movement) : List Movement :=
  l.filter (fun m =>
    isFailedConversion m.clp_value || isFailedConversion m.usd_value ||
      isFailedConversion m.gbp_value)

/-- A numeric conversion result `{clpValue, usdValue, gbpValue}`. -/
structure QTriple where
  clp : ℚ
  usd : ℚ
  gbp : ℚ
deriving DecidableEq

/-- `Database.fixMovementCurrencyConversion` (Database.js 559-599),
parameterized by the conversion oracle `conv`, which stands in for
`CurrencyConversionService.fixCurrencyConversion` (modelled from the spec,
section 4.4: re-attempts conversion, null meaning "do not update this
row"). Returns `false` for a missing row, an invalid amount/currency
(`!amount || !currency || isNaN(amount)`), or a null/all-falsy conversion
result, in each case leaving the ledger unchanged. When the conversion
result is usable the source then reads `sheetRowIndex` (Database.js 593), a
variable never defined in this function (its siblings define it as
`movementRowIndex + 2`; this one does not), so execution throws a
`ReferenceError` before any cell is written: the embedding returns
`Except.error` with the ledger untouched. -/
def fixMovementCurrencyConversionE (conv : ℚ → Option String → Option QTriple)
    (l : List Movement) (key : Option Int) : Except Unit (Bool × List Movement) :=
  match findById l key with
  | none => Except.ok (false, l)
  | some m =>
    if m.amount = 0 ∨ ¬ truthyStr m.currency then Except.ok (false, l)
    else
      match conv m.amount m.currency with
      | none => Except.ok (false, l)
      | some cv =>
        if cv.clp = 0 ∧ cv.usd = 0 ∧ cv.gbp = 0 then Except.ok (false, l)
        else Except.error ()

/-- The `forEach` of `Database.fixAllFailedCurrencyConversions`
(Database.js 612-619): count per-movement outcomes; an exception escapes
the loop. -/
def fixAllGo (conv : ℚ → Option String → Option QTriple) :
    List Movement → List Movement → Nat → Nat →
      Except Unit (Nat × Nat × List Movement)
  | l, [], s, f => Except.ok (s, f, l)
  | l, m :: rest, s, f =>
    match fixMovementCurrencyConversionE conv l m.id with
    | Except.error e => Except.error e
    | Except.ok (true, l2) => fixAllGo conv l2 rest (s + 1) f
    | Except.ok (false, l2) => fixAllGo conv l2 rest s (f + 1)

/-- `Database.fixAllFailedCurrencyConversions` (Database.js 605-623). -/
def fixAllFailedCurrencyConversionsE (conv : ℚ → Option String → Option QTriple)
    (l : List Movement) : Except Unit (Nat × Nat × List Movement) :=
  fixAllGo conv l (getMovementsWithFailedCurrencyConversion l) 0 0

/-- `ExpenseTracker.processDebitRepaymentSettlement` (ExpenseTracker.js
213-274), parameterized by the AI matcher oracle
(`GoogleAIStudioService.matchDebitRepayment`). The repayment's
`settled_movement_id` is written whenever the matched id is found among the
pending debits; the debit's status becomes `Settled` only when
`repaymentPercentage >= 95`. A falsy (zero/null) matcher result is
skipped. -/
def processDebitRepaymentSettlement
    (matcher : Movement → List Movement → Option Int)
    (l : List Movement) (rid : Option Int) (rep : Movement) : List Movement :=
  let pending := getMovementsPendingDirectSettlement l
  if pending.isEmpty then l
  else
    match matcher rep pending with
    | none => l
    | some mid =>
      if mid = 0 then l
      else
        match pending.find? (fun d => idMatches d.id (some mid)) with
        | none => l
        | some debit =>
          let repaymentPercentage := rep.amount / debit.amount * 100
          let l1 := updateMovementSettledId l rid mid
          if 95 ≤ repaymentPercentage then
            updateMovementStatus l1 (some mid) (some STATUS_SETTLED)
          else l1

/-- Steps 3-5 of the loop body (ExpenseTracker.js 137-180): either the
re-categorization split, or the analysis update optionally followed by the
shared-expense split; the `Except` carries a split's thrown exception. -/
def classificationStep (l : List Movement) (m : Movement) (ar : Analysis) :
    Except String Unit × List Movement :=
  if ar.needs_split && ar.split_type == some "EXPENSE" then
    let r := splitExpenseForRecategorizationE l m.id
      { split_amount := ar.split_amount.getD 0
        split_category := none
        split_description := ar.split_description
        clean_description := ar.clean_description }
    (r.1.map (fun _ => ()), r.2)
  else
    let l1 := updateMovementWithAnalysis l m.id ar
    if ar.needs_split then
      let r := splitMovementE l1 m.id
        { split_amount := ar.split_amount.getD 0
          split_category := ar.split_category
          split_description := ar.split_description
          clean_description := ar.clean_description }
      (r.1.map (fun _ => ()), r.2)
    else (Except.ok (), l1)

/-- Step 6 of the loop body (ExpenseTracker.js 182-185): settlement matching
runs only when no exception escaped the preceding steps and the movement is
a debit repayment; the Boolean records whether it ran. -/
def settlementStep (matcher : Movement → List Movement → Option Int)
    (m : Movement) (stepRes : Except String Unit) (l2 : List Movement) :
    List Movement × Bool :=
  match stepRes with
  | Except.error _ => (l2, false)
  | Except.ok _ =>
    if m.mtype == some TYPE_DEBIT_REPAYMENT then
      (processDebitRepaymentSettlement matcher l2 m.id m, true)
    else (l2, false)

/-- One iteration of the loop of
`ExpenseTracker.processUncategorizedMovements` (ExpenseTracker.js 113-198),
parameterized by the classifier oracle `analyze`
(`GoogleAIStudioService.analyzeCategory` followed by the strict validation
of `parseCategoryAnalysisResponse`; `none` is a discarded/failed result)
and the matcher oracle. Returns the new ledger and whether step 6
(settlement matching) ran for this movement. An exception thrown by a split
is caught by the per-movement `catch`, skipping step 6 but keeping the
mutations already applied. -/
def processOneMovement (analyze : Movement → Option Analysis)
    (matcher : Movement → List Movement → Option Int)
    (l : List Movement) (m : Movement) : List Movement × Bool :=
  match analyze m with
  | none => (l, false)
  | some ar =>
    settlementStep matcher m (classificationStep l m ar).1
      (classificationStep l m ar).2

/-- The loop of `processUncategorizedMovements` over the snapshot of rows
needing analysis, collecting the movements for which settlement matching
was attempted. -/
def processUncatGo (analyze : Movement → Option Analysis)
    (matcher : Movement → List Movement → Option Int) :
    List Movement → List Movement → List Movement × List Movement
  | l, [] => (l, [])
  | l, m :: rest =>
    let r := processOneMovement analyze matcher l m
    let rec2 := processUncatGo analyze matcher r.1 rest
    (rec2.1, (if r.2 then [m] else []) ++ rec2.2)

/-- `ExpenseTracker.processUncategorizedMovements` (ExpenseTracker.js
94-206): iterate over the snapshot `getMovementsNeedingCategoryAnalysis`;
the second component lists the movements submitted to the settlement
matcher during the run. -/
def processUncategorizedMovements (analyze : Movement → Option Analysis)
    (matcher : Movement → List Movement → Option Int)
    (l : List Movement) : List Movement × List Movement :=
  processUncatGo analyze matcher l (getMovementsNeedingCategoryAnalysis l)

/-- `Database.getExistingSourceIds` (Database.js 29-57): the set of truthy
`source_id` cells, restricted to rows of the given `source` when one is
passed. -/
def getExistingSourceIds (l : List Movement) (source : Option String) :
    List String :=
  match source with
  | some src =>
    l.filterMap (fun m =>
      if m.source == some src && truthyStr m.source_id then m.source_id else none)
  | none =>
    l.filterMap (fun m => if truthyStr m.source_id then m.source_id else none)

/-- A normalized Monzo transaction as consumed by
`ExpenseTracker.processMonzoTransactions`. -/
structure MonzoTx where
  txId : String
  amount : ℚ
  currency : Option String
  created : Option Int
deriving DecidableEq

/-- `ExpenseTracker.createMonzoMovementRow` (ExpenseTracker.js 543-585).
`MonzoService.convertTransactionToMovement` is code of the repository not
under `src/` and is modelled from the spec (section 6: the provider returns
normalized records and the pipeline assigns `source` and `source_id`);
`getAllCurrencyValues` is modelled from the spec (sections 4.4 and 7: a
conversion failure is recorded via sentinel values), through the oracle
`conv`. -/
def createMonzoMovementRow (conv : ℚ → Option String → Option QTriple)
    (tx : MonzoTx) (nid : Int) : Movement :=
  let vals : CurrencyTriple :=
    match conv tx.amount tx.currency with
    | some cv => ⟨CellValue.num cv.clp, CellValue.num cv.usd, CellValue.num cv.gbp⟩
    | none => ⟨CellValue.err, CellValue.err, CellValue.err⟩
  { timestamp := tx.created
    direction := some "Outflow"
    mtype := some "Expense"
    amount := tx.amount
    currency := tx.currency
    source_description := none
    user_description := none
    comment := none
    ai_comment := none
    category := none
    status := none
    settled_movement_id := none
    clp_value := vals.clp
    usd_value := vals.usd
    gbp_value := vals.gbp
    original_amount := none
    id := some nid
    source := some SOURCE_MONZO
    source_id := some tx.txId
    accounting_system_id := none }

/-- The id-assigning loop of `processMonzoTransactions` (ExpenseTracker.js
436-449): consecutive ids starting from `getNextId`. -/
def buildMonzoBatch (conv : ℚ → Option String → Option QTriple) :
    List MonzoTx → Int → List BatchItem
  | [], _ => []
  | tx :: rest, n =>
    { ts := tx.created, row := createMonzoMovementRow conv tx n } ::
      buildMonzoBatch conv rest (n + 1)

/-- `ExpenseTracker.processMonzoTransactions` (ExpenseTracker.js 388-461),
restricted to its ledger interaction: filter out transactions whose id is
already among the existing Monzo source ids, then batch-insert the rest. -/
def processMonzoTransactions (conv : ℚ → Option String → Option QTriple)
    (l : List Movement) (txs : List MonzoTx) : List Movement :=
  let existing := getExistingSourceIds l (some SOURCE_MONZO)
  let newTxs := txs.filter (fun tx => ! existing.contains tx.txId)
  if newTxs.isEmpty then l
  else (addMovementsBatchE l (buildMonzoBatch conv newTxs (getNextId l))).2

/-- The ledger-mutating operations of the store, for stating reachability
invariants. `fixConv` carries the movement key; the conversion oracle is a
parameter of `applyOp`. -/
inductive DbOp where
  | add (m : Movement)
  | addBatch (items : List BatchItem)
  | updCategory (key : Option Int) (c : Option String)
  | updAnalysis (key : Option Int) (ar : Analysis)
  | updStatus (key : Option Int) (s : Option String)
  | updSettledId (key : Option Int) (sid : Int)
  | updSplitwise (key : Option Int) (sw : String)
  | splitShared (key : Option Int) (info : SplitInfo)
  | splitRecat (key : Option Int) (info : SplitInfo)
  | settle (matcher : Movement → List Movement → Option Int)
      (rid : Option Int) (rep : Movement)
  | fixConv (key : Option Int)

/-- The ledger state after one operation; a thrown exception leaves the
sheet in the state reached before the throw. -/
def applyOp (conv : ℚ → Option String → Option QTriple) :
    DbOp → List Movement → List Movement
  | DbOp.add m, l =>
    match addMovement l m with
    | Except.ok l2 => l2
    | Except.error _ => l
  | DbOp.addBatch items, l => (addMovementsBatchE l items).2
  | DbOp.updCategory key c, l => updateMovementCategory l key c
  | DbOp.updAnalysis key ar, l => updateMovementWithAnalysis l key ar
  | DbOp.updStatus key s, l => updateMovementStatus l key s
  | DbOp.updSettledId key sid, l => updateMovementSettledId l key sid
  | DbOp.updSplitwise key sw, l => updateMovementWithSplitwiseInfo l key sw
  | DbOp.splitShared key info, l => (splitMovementE l key info).2
  | DbOp.splitRecat key info, l => (splitExpenseForRecategorizationE l key info).2
  | DbOp.settle matcher rid rep, l => processDebitRepaymentSettlement matcher l rid rep
  | DbOp.fixConv key, l =>
    match fixMovementCurrencyConversionE conv l key with
    | Except.ok r => r.2
    | Except.error _ => l

/-- The data-model invariant of spec section 3: no negative amount, no
unset currency. -/
def MovOk (m : Movement) : Prop :=
  0 ≤ m.amount ∧ truthyStr m.currency = true

instance (m : Movement) : Decidable (MovOk m) :=
  inferInstanceAs (Decidable (_ ∧ _))

/-- The invariant over the whole ledger. -/
def Inv (l : List Movement) : Prop := ∀ m ∈ l, MovOk m

instance (l : List Movement) : Decidable (Inv l) :=
  inferInstanceAs (Decidable (∀ m ∈ l, MovOk m))

/-- Side conditions under which an operation preserves the invariant:
inserted rows satisfy it, and a shared-expense split amount lies within
the original amount (the code does not validate this; the
re-categorization split validates internally). -/
def Pre : DbOp → List Movement → Prop
  | DbOp.add m, _ => MovOk m
  | DbOp.addBatch items, _ => ∀ it ∈ items, MovOk it.row
  | DbOp.splitShared key info, l =>
    ∀ orig, findById l key = some orig →
      0 ≤ info.split_amount ∧ info.split_amount ≤ orig.amount
  | _, _ => True

/-- A sequence of operations applied left to right. -/
def applyAll (conv : ℚ → Option String → Option QTriple) :
    List DbOp → List Movement → List Movement
  | [], l => l
  | op :: ops, l => applyAll conv ops (applyOp conv op l)

/-- The side conditions hold at each state along the trace. -/
def PreAll (conv : ℚ → Option String → Option QTriple) :
    List DbOp → List Movement → Prop
  | [], _ => True
  | op :: ops, l => Pre op l ∧ PreAll conv ops (applyOp conv op l)

/-- The ledger never holds two rows with the same (numeric) id. -/
def UniqueIds (l : List Movement) : Prop :=
  (l.filterMap (fun m => m.id)).Nodup

instance (l : List Movement) : Decidable (UniqueIds l) :=
  inferInstanceAs (Decidable (List.Nodup _))

/-- A batch whose rows carry pairwise distinct numeric ids, none of them
already present in the ledger. -/
def BatchFresh (l : List Movement) (items : List BatchItem) : Prop :=
  ((items.map (fun it => it.row)).filterMap (fun m => m.id)).Nodup ∧
    ∀ it ∈ items, idExists l it.row.id = false

instance (l : List Movement) (items : List BatchItem) :
    Decidable (BatchFresh l items) :=
  inferInstanceAs (Decidable (_ ∧ _))

/-- Conservation of one currency-value cell across a split: when the
original cell is numeric, the two halves hold the original value scaled by
`s / A` and `(A - s) / A`, and they sum back to the original value. -/
def ConservesCell (v v1 v2 : CellValue) (A s : ℚ) : Prop :=
  ∀ q, v = CellValue.num q →
    v1 = CellValue.num (q * (s / A)) ∧
    v2 = CellValue.num (q * ((A - s) / A)) ∧
    ∃ q1 q2, v1 = CellValue.num q1 ∧ v2 = CellValue.num q2 ∧ q1 + q2 = q

/-- The number of ledger rows carrying the Monzo idempotency key
`(source = monzo, source_id = t)`. -/
def countMonzoKey (l : List Movement) (t : String) : Nat :=
  (l.filter (fun m =>
    m.source == some SOURCE_MONZO && m.source_id == some t)).length

/-- A blank base row used by the concrete test vectors below. -/
def mv0 : Movement :=
  { timestamp := none
    direction := none
    mtype := none
    amount := 0
    currency := some "CLP"
    source_description := none
    user_description := none
    comment := none
    ai_comment := none
    category := none
    status := none
    settled_movement_id := none
    clp_value := CellValue.blank
    usd_value := CellValue.blank
    gbp_value := CellValue.blank
    original_amount := none
    id := none
    source := none
    source_id := none
    accounting_system_id := none }

/-- A conversion oracle used by the concrete test vectors. -/
def conv0 : ℚ → Option String → Option QTriple :=
  fun a _ => some ⟨a, a / 2, a / 3⟩

/-- Test vector: an expense of 100 with numeric currency values. -/
def mvA : Movement :=
  { mv0 with
    amount := 100
    id := some 1
    mtype := some "Expense"
    clp_value := CellValue.num 100
    usd_value := CellValue.num 10
    gbp_value := CellValue.num 8 }

/-- Test vector: split parameters with a personal portion of 30. -/
def infoA : SplitInfo :=
  { split_amount := 30
    split_category := some "restaurants"
    split_description := some "shared part"
    clean_description := some "my part" }

/-- Test vector: a movement of amount 50. -/
def mvB : Movement := { mv0 with amount := 50, id := some 1 }

/-- Test vector: split parameters exceeding the original amount of `mvB`. -/
def infoB : SplitInfo :=
  { split_amount := 60
    split_category := none
    split_description := none
    clean_description := none }

/-- Test vector: a pending debit of 100. -/
def debitC : Movement :=
  { mv0 with
    amount := 100
    id := some 2
    mtype := some TYPE_DEBIT
    status := some STATUS_PENDING }

/-- Test vector: a repayment of 96 against `debitC`. -/
def repC : Movement :=
  { mv0 with
    amount := 96
    id := some 1
    mtype := some TYPE_DEBIT_REPAYMENT
    user_description := some "pay back" }

/-- Test vector: a matcher oracle that always selects movement 2. -/
def matcherC : Movement → List Movement → Option Int := fun _ _ => some 2

/-- Test vector: a repairable movement (valid amount and currency, sentinel
currency values). -/
def mBad4 : Movement :=
  { mv0 with
    amount := 100
    id := some 1
    clp_value := CellValue.err
    usd_value := CellValue.err
    gbp_value := CellValue.err }

/-- Test vector: a movement with an invalid (zero) amount and a sentinel
currency value. -/
def mInv4 : Movement :=
  { mv0 with amount := 0, id := some 2, usd_value := CellValue.err }

/-- Test vector: a batch of three rows timestamped T3, T1, T2. -/
def items6w : List BatchItem :=
  [ { ts := some 3, row := { mv0 with id := some 11 } }
  , { ts := some 1, row := { mv0 with id := some 12 } }
  , { ts := some 2, row := { mv0 with id := some 13 } } ]

/-- Test vector: a row whose timestamp parses to a pre-epoch instant. -/
def itemPre6 : BatchItem :=
  { ts := some (-86400000), row := { mv0 with id := some 21 } }

/-- Test vector: a row with a missing (falsy) timestamp. -/
def itemMiss6 : BatchItem := { ts := none, row := { mv0 with id := some 22 } }

/-- Test vector: a valid ledger of one expense of 100. -/
def mOrig7 : Movement := { mv0 with amount := 100, id := some 1 }

/-- Test vector: an unvalidated shared-expense split amount of 150 against
an original amount of 100. -/
def badInfo7 : SplitInfo :=
  { split_amount := 150
    split_category := none
    split_description := none
    clean_description := none }

/-- Test vector: an insert followed by a status update. -/
def ops7 : List DbOp :=
  [ DbOp.add { mv0 with amount := 5, id := some 1 }
  , DbOp.updStatus (some 1) (some STATUS_SETTLED) ]

/-- Test vector: a ledger whose ids have a gap (1 and 5). -/
def gap8 : List Movement :=
  [ { mv0 with id := some 1 }, { mv0 with id := some 5 } ]

/-- Test vector: a one-row ledger with id 3. -/
def led8 : List Movement := [ { mv0 with id := some 3 } ]

/-- Test vector: one Monzo transaction. -/
def tx9 : MonzoTx :=
  { txId := "tx1", amount := 25, currency := some "GBP", created := some 1000 }

/-- Test vector: an uncategorized debit-repayment row. -/
def rep10 : Movement :=
  { mv0 with
    amount := 10
    id := some 1
    mtype := some TYPE_DEBIT_REPAYMENT
    user_description := some "pay back" }

/-- Test vector: a classifier oracle returning a plain categorization. -/
def analyze10 : Movement → Option Analysis := fun _ =>
  some
    { category := some "transfers"
      needs_split := false
      split_type := none
      split_amount := none
      split_description := none
      split_category := none
      clean_description := some "pay back" }

/-- Test vector: a matcher oracle that finds no match. -/
def matcher10 : Movement → List Movement → Option Int := fun _ _ => none

/-! ### Helper lemmas about ids, lookup and in-place mutation -/

theorem idMatches_unique {a b k : Option Int} (ha : idMatches a k = true)
    (hb : idMatches b k = true) : a = b := by
  cases a <;> cases b <;> cases k <;> simp [idMatches] at ha hb ⊢
  omega

theorem idMatches_some_iff {a : Option Int} {x : Int} :
    idMatches a (some x) = true ↔ a = some x := by
  cases a <;> simp [idMatches]

theorem idExists_some_iff {l : List Movement} {x : Int} :
    idExists l (some x) = true ↔ ∃ m ∈ l, m.id = some x := by
  simp [idExists, List.any_eq_true, idMatches_some_iff]

theorem findById_mem {l : List Movement} {k : Option Int} {m : Movement}
    (h : findById l k = some m) : m ∈ l :=
  List.mem_of_find?_eq_some h

theorem findById_matches {l : List Movement} {k : Option Int} {m : Movement}
    (h : findById l k = some m) : idMatches m.id k = true := by
  rw [findById] at h
  induction l with
  | nil => simp [List.find?] at h
  | cons a t ih =>
    by_cases hp : idMatches a.id k = true
    · simp only [List.find?, hp] at h
      cases h
      exact hp
    · have hp' : idMatches a.id k = false := by simpa using hp
      simp only [List.find?, hp'] at h
      exact ih h

theorem find?_append_left {α : Type} {p : α → Bool} {l1 l2 : List α} {x : α}
    (h : l1.find? p = some x) : (l1 ++ l2).find? p = some x := by
  induction l1 with
  | nil => simp [List.find?] at h
  | cons a t ih =>
    by_cases hp : p a = true
    · rw [List.find?_cons_of_pos _ hp] at h
      rw [List.cons_append, List.find?_cons_of_pos _ hp]
      exact h
    · rw [List.find?_cons_of_neg _ hp] at h
      rw [List.cons_append, List.find?_cons_of_neg _ hp]
      exact ih h

theorem modifyById_eq_of_not_found {l : List Movement} {k : Option Int}
    {f : Movement → Movement} (h : findById l k = none) :
    modifyById l k f = l := by
  rw [findById, List.find?_eq_none] at h
  induction l with
  | nil => rfl
  | cons m rest ih =>
    have hm : idMatches m.id k = false := by
      have := h m (List.mem_cons_self m rest)
      simpa using this
    have htail : modifyById rest k f = rest :=
      ih (fun x hx => h x (List.mem_cons_of_mem m hx))
    simp [modifyById, hm, htail]

theorem map_id_modifyById {l : List Movement} {k : Option Int}
    {f : Movement → Movement}
    (H : ∀ m, idMatches m.id k = true → (f m).id = m.id) :
    (modifyById l k f).map (fun m => m.id) = l.map (fun m => m.id) := by
  induction l with
  | nil => rfl
  | cons m rest ih =>
    by_cases hm : idMatches m.id k
    · simp [modifyById, hm, H m hm]
    · simp [modifyById, hm, ih]

theorem idExists_eq_of_map_id {l1 : List Movement} : ∀ {l2 : List Movement},
    l1.map (fun m => m.id) = l2.map (fun m => m.id) →
      ∀ v, idExists l1 v = idExists l2 v := by
  induction l1 with
  | nil =>
    intro l2 h v
    cases l2 with
    | nil => rfl
    | cons m2 t2 => simp at h
  | cons m t ih =>
    intro l2 h v
    cases l2 with
    | nil => simp at h
    | cons m2 t2 =>
      simp only [List.map_cons, List.cons.injEq] at h
      have ht := ih h.2 v
      simp only [idExists, List.any_cons] at ht ⊢
      rw [h.1, ht]

theorem getNextId_eq_of_map_id {l1 l2 : List Movement}
    (h : l1.map (fun m => m.id) = l2.map (fun m => m.id)) :
    getNextId l1 = getNextId l2 := by
  have hlen : l1.length = l2.length := by
    have := congrArg List.length h
    simpa using this
  have hfold :
      l1.foldl (fun acc m => maxIdStep acc m.id) 0 =
        l2.foldl (fun acc m => maxIdStep acc m.id) 0 := by
    have e1 : l1.foldl (fun acc m => maxIdStep acc m.id) 0 =
        (l1.map (fun m => m.id)).foldl maxIdStep 0 := by
      rw [List.foldl_map]
    have e2 : l2.foldl (fun acc m => maxIdStep acc m.id) 0 =
        (l2.map (fun m => m.id)).foldl maxIdStep 0 := by
      rw [List.foldl_map]
    rw [e1, e2, h]
  unfold getNextId
  rw [hfold]
  cases l1 <;> cases l2 <;> simp_all

theorem le_maxIdStep (acc : Int) (o : Option Int) : acc ≤ maxIdStep acc o := by
  cases o with
  | none => exact le_refl _
  | some i =>
    simp only [maxIdStep]
    split
    · next hc => exact le_of_lt hc.2
    · exact le_refl _

theorem le_foldl_maxId (l : List Movement) :
    ∀ acc : Int, acc ≤ l.foldl (fun a m => maxIdStep a m.id) acc := by
  induction l with
  | nil => intro acc; exact le_refl _
  | cons m rest ih =>
    intro acc
    exact le_trans (le_maxIdStep acc m.id) (ih _)

theorem mem_le_foldl_maxId {l : List Movement} {m : Movement} {i : Int}
    (hm : m ∈ l) (hid : m.id = some i) (hpos : 0 < i) :
    ∀ acc : Int, i ≤ l.foldl (fun a m => maxIdStep a m.id) acc := by
  induction l with
  | nil => cases hm
  | cons x rest ih =>
    intro acc
    rw [List.foldl_cons]
    rcases List.mem_cons.mp hm with h | h
    · subst h
      refine le_trans ?_ (le_foldl_maxId rest _)
      rw [hid]
      simp only [maxIdStep]
      split
      · exact le_refl _
      · next hc =>
        push_neg at hc
        exact hc (by omega)
    · exact ih h _

theorem getNextId_pos (l : List Movement) : 1 ≤ getNextId l := by
  unfold getNextId
  split
  · exact le_refl _
  · have := le_foldl_maxId l 0
    omega

theorem id_lt_getNextId {l : List Movement} {m : Movement} {i : Int}
    (hm : m ∈ l) (hid : m.id = some i) : i < getNextId l := by
  rcases le_or_lt i 0 with hle | hpos
  · exact lt_of_le_of_lt hle (lt_of_lt_of_le (by norm_num) (getNextId_pos l))
  · unfold getNextId
    split
    · next he =>
      rw [List.isEmpty_iff] at he
      subst he
      cases hm
    · have := mem_le_foldl_maxId hm hid hpos 0
      omega

theorem idExists_getNextId_false (l : List Movement) :
    idExists l (some (getNextId l)) = false := by
  by_contra h
  have h' : idExists l (some (getNextId l)) = true := by
    cases hx : idExists l (some (getNextId l))
    · exact absurd hx h
    · rfl
  rcases idExists_some_iff.mp h' with ⟨m, hm, hid⟩
  have := id_lt_getNextId hm hid
  omega

theorem maxIdStep_some (acc i : Int) :
    maxIdStep acc (some i) = if i ≠ 0 ∧ acc < i then i else acc := rfl

theorem getNextId_snoc {l : List Movement} {m : Movement}
    (hid : m.id = some (getNextId l)) :
    getNextId (l ++ [m]) = getNextId l + 1 := by
  have hne : (l ++ [m]).isEmpty = false := by
    cases l <;> simp
  cases l with
  | nil =>
    simp [getNextId] at hid
    simp [getNextId, maxIdStep, hid]
  | cons x t =>
    have hF := le_foldl_maxId (x :: t) 0
    have hN : getNextId (x :: t) =
        (x :: t).foldl (fun a m => maxIdStep a m.id) 0 + 1 := by
      simp [getNextId]
    have h2 : getNextId ((x :: t) ++ [m]) =
        ((x :: t) ++ [m]).foldl (fun a m => maxIdStep a m.id) 0 + 1 := by
      simp [getNextId]
    have hcond : getNextId (x :: t) ≠ 0 ∧
        (x :: t).foldl (fun a m => maxIdStep a m.id) 0 < getNextId (x :: t) := by
      constructor
      · have := getNextId_pos (x :: t)
        omega
      · rw [hN]
        omega
    rw [h2, List.foldl_append]
    conv_lhs => rw [List.foldl_cons, List.foldl_nil]
    rw [hid, maxIdStep_some, if_pos hcond]

theorem idExists_append (l : List Movement) (m : Movement) (v : Option Int) :
    idExists (l ++ [m]) v = (idExists l v || idMatches m.id v) := by
  simp [idExists, List.any_append]

theorem findById_modifyById_self {l : List Movement} {k : Option Int}
    {f : Movement → Movement} {o : Movement} (h : findById l k = some o)
    (hid : idMatches (f o).id k = true) :
    findById (modifyById l k f) k = some (f o) := by
  induction l with
  | nil => simp [findById, List.find?] at h
  | cons m rest ih =>
    by_cases hm : idMatches m.id k = true
    · rw [findById] at h
      simp only [List.find?, hm] at h
      cases h
      simp only [modifyById, hm, if_pos]
      rw [findById]
      simp [List.find?, hid]
    · have hm' : idMatches m.id k = false := by simpa using hm
      rw [findById] at h
      simp only [List.find?, hm'] at h
      have := ih h
      simp only [modifyById, hm', Bool.false_eq_true, if_false]
      rw [findById]
      simp only [List.find?, hm']
      exact this

theorem findById_modifyById_of_preserve {l : List Movement} {k : Option Int}
    {f : Movement → Movement} (hf : ∀ m, (f m).id = m.id) :
    findById (modifyById l k f) k = (findById l k).map f := by
  cases h : findById l k with
  | none => rw [modifyById_eq_of_not_found h, h]; rfl
  | some o =>
    have hid : idMatches (f o).id k = true := by
      rw [hf o]; exact findById_matches h
    rw [findById_modifyById_self h hid]
    rfl

theorem findById_modifyById_ne {l : List Movement} {k k' : Option Int}
    {f : Movement → Movement} (hf : ∀ m, (f m).id = m.id) (hne : k ≠ k') :
    findById (modifyById l k f) k' = findById l k' := by
  induction l with
  | nil => rfl
  | cons m rest ih =>
    by_cases hm : idMatches m.id k = true
    · have hm2 : idMatches m.id k' = false := by
        by_contra hx
        have hx' : idMatches m.id k' = true := by
          cases hv : idMatches m.id k'
          · exact absurd hv hx
          · rfl
        cases hk : m.id <;> cases hk1 : k <;> cases hk2 : k' <;>
          simp_all [idMatches]
      have hm2' : idMatches (f m).id k' = false := by rw [hf m]; exact hm2
      simp only [modifyById, hm, if_pos]
      rw [findById, findById]
      simp only [List.find?, hm2, hm2']
    · have hm' : idMatches m.id k = false := by simpa using hm
      simp only [modifyById, hm', Bool.false_eq_true, if_false]
      rw [findById, findById]
      simp only [List.find?]
      cases hv : idMatches m.id k'
      · exact ih
      · rfl

/-! ### Id uniqueness -/

theorem not_idExists_iff {l : List Movement} {x : Int} :
    idExists l (some x) = false ↔ x ∉ l.filterMap (fun m => m.id) := by
  rw [List.mem_filterMap]
  constructor
  · intro h hc
    rcases hc with ⟨m, hm, hid⟩
    have : idExists l (some x) = true := idExists_some_iff.mpr ⟨m, hm, hid⟩
    rw [h] at this
    cases this
  · intro h
    cases hx : idExists l (some x)
    · rfl
    · rcases idExists_some_iff.mp hx with ⟨m, hm, hid⟩
      exact absurd ⟨m, hm, hid⟩ h

theorem uniqueIds_append {l : List Movement} {m : Movement}
    (hu : UniqueIds l) (hfresh : idExists l m.id = false) :
    UniqueIds (l ++ [m]) := by
  unfold UniqueIds at *
  rw [List.filterMap_append]
  cases hid : m.id with
  | none => simpa [List.filterMap, hid] using hu
  | some x =>
    have hx : x ∉ l.filterMap (fun m => m.id) := by
      rw [← not_idExists_iff]
      rw [hid] at hfresh
      exact hfresh
    simp only [List.filterMap, hid]
    rw [List.nodup_append]
    refine ⟨hu, by simp, ?_⟩
    intro a ha hb
    simp at hb
    subst hb
    exact hx ha

theorem uniqueIds_of_map_id {l1 l2 : List Movement}
    (h : l1.map (fun m => m.id) = l2.map (fun m => m.id))
    (hu : UniqueIds l1) : UniqueIds l2 := by
  unfold UniqueIds at *
  have e1 : l1.filterMap (fun m => m.id) =
      (l1.map (fun m => m.id)).filterMap id := by
    rw [List.filterMap_map]
    rfl
  have e2 : l2.filterMap (fun m => m.id) =
      (l2.map (fun m => m.id)).filterMap id := by
    rw [List.filterMap_map]
    rfl
  rw [e2, ← h, ← e1]
  exact hu

/-! ### Batch insertion -/

theorem addMovement_ok {l : List Movement} {m : Movement}
    (h : idExists l m.id = false) : addMovement l m = Except.ok (l ++ [m]) := by
  simp [addMovement, h]

theorem addBatchSorted_ok : ∀ {items : List BatchItem} {l : List Movement},
    BatchFresh l items →
      addBatchSorted l items = (Except.ok (), l ++ items.map (fun it => it.row)) := by
  intro items
  induction items with
  | nil => intro l _; simp [addBatchSorted]
  | cons it rest ih =>
    intro l hfresh
    have hhead : idExists l it.row.id = false := hfresh.2 it (List.mem_cons_self _ _)
    have hnodup := hfresh.1
    have htail : BatchFresh (l ++ [it.row]) rest := by
      constructor
      · rcases hid : it.row.id with _ | x
        · simpa [List.filterMap, hid] using hnodup
        · have := hnodup
          simp only [List.map_cons, List.filterMap, hid] at this
          exact this.of_cons
      · intro it2 h2
        rw [idExists_append]
        rw [hfresh.2 it2 (List.mem_cons_of_mem _ h2)]
        rcases hk : it2.row.id with _ | y
        · simp [idMatches]
        · cases hmatch : idMatches it.row.id (some y)
          · rfl
          · exfalso
            have hidy : it.row.id = some y := idMatches_some_iff.mp hmatch
            have := hnodup
            simp only [List.map_cons, List.filterMap, hidy] at this
            have hy : y ∈ (rest.map (fun it => it.row)).filterMap (fun m => m.id) := by
              rw [List.mem_filterMap]
              exact ⟨it2.row, List.mem_map_of_mem _ h2, hk⟩
            rw [List.nodup_cons] at this
            exact this.1 hy
    rw [addBatchSorted, addMovement_ok hhead]
    show addBatchSorted (l ++ [it.row]) rest = _
    rw [ih htail]
    simp

theorem addBatchSorted_uniqueIds : ∀ {items : List BatchItem} {l : List Movement},
    UniqueIds l → UniqueIds (addBatchSorted l items).2 := by
  intro items
  induction items with
  | nil => intro l hu; exact hu
  | cons it rest ih =>
    intro l hu
    rw [addBatchSorted]
    cases hex : idExists l it.row.id
    · rw [addMovement_ok hex]
      exact ih (uniqueIds_append hu hex)
    · simp [addMovement, hex]
      exact hu

theorem addBatchSorted_inv : ∀ {items : List BatchItem} {l : List Movement},
    (∀ it ∈ items, MovOk it.row) → Inv l → Inv (addBatchSorted l items).2 := by
  intro items
  induction items with
  | nil => intro l _ hi; exact hi
  | cons it rest ih =>
    intro l hok hi
    rw [addBatchSorted]
    cases hex : idExists l it.row.id
    · rw [addMovement_ok hex]
      refine ih (fun x hx => hok x (List.mem_cons_of_mem _ hx)) ?_
      intro m hm
      rcases List.mem_append.mp hm with h | h
      · exact hi m h
      · rcases List.mem_singleton.mp h with rfl
        exact hok it (List.mem_cons_self _ _)
    · simp [addMovement, hex]
      exact hi

theorem batchFresh_insertionSort {l : List Movement} {items : List BatchItem}
    (h : BatchFresh l items) : BatchFresh l (List.insertionSort tsLe items) := by
  have hperm : (List.insertionSort tsLe items).Perm items :=
    List.perm_insertionSort tsLe items
  constructor
  · have hp2 : ((List.insertionSort tsLe items).map (fun it => it.row)).Perm
        (items.map (fun it => it.row)) := hperm.map _
    have hp3 := hp2.filterMap (fun m => m.id)
    exact hp3.nodup_iff.mpr h.1
  · intro it hmem
    exact h.2 it (hperm.mem_iff.mp hmem)

theorem addMovementsBatchE_ok {l : List Movement} {items : List BatchItem}
    (h : BatchFresh l items) :
    addMovementsBatchE l items =
      (Except.ok (), l ++ (List.insertionSort tsLe items).map (fun it => it.row)) := by
  rw [addMovementsBatchE, addBatchSorted_ok (batchFresh_insertionSort h)]

/-! ### Invariant preservation -/

theorem inv_append {l : List Movement} {m : Movement}
    (hi : Inv l) (hm : MovOk m) : Inv (l ++ [m]) := by
  intro x hx
  rcases List.mem_append.mp hx with h | h
  · exact hi x h
  · rcases List.mem_singleton.mp h with rfl
    exact hm

theorem inv_modifyById {l : List Movement} {k : Option Int}
    {f : Movement → Movement} (hf : ∀ m, MovOk m → MovOk (f m))
    (hi : Inv l) : Inv (modifyById l k f) := by
  induction l with
  | nil => intro x hx; cases hx
  | cons m rest ih =>
    by_cases hm : idMatches m.id k = true
    · simp only [modifyById, hm, if_pos]
      intro x hx
      rcases List.mem_cons.mp hx with h | h
      · subst h
        exact hf m (hi m (List.mem_cons_self _ _))
      · exact hi x (List.mem_cons_of_mem _ h)
    · have hm' : idMatches m.id k = false := by simpa using hm
      simp only [modifyById, hm', Bool.false_eq_true, if_false]
      intro x hx
      rcases List.mem_cons.mp hx with h | h
      · subst h
        exact hi x (List.mem_cons_self _ _)
      · exact ih (fun y hy => hi y (List.mem_cons_of_mem _ hy)) x h

theorem inv_modifyById_const {l : List Movement} {k : Option Int}
    {o2 : Movement} (ho : MovOk o2) (hi : Inv l) :
    Inv (modifyById l k (fun _ => o2)) :=
  inv_modifyById (fun _ _ => ho) hi

/-! ### Split equations -/

theorem map_id_modifyById_found {l : List Movement} {k : Option Int}
    {orig o2 : Movement} (hfind : findById l k = some orig)
    (hid : o2.id = orig.id) :
    (modifyById l k (fun _ => o2)).map (fun m => m.id) =
      l.map (fun m => m.id) := by
  apply map_id_modifyById
  intro m hm
  show o2.id = m.id
  rw [hid]
  exact idMatches_unique (findById_matches hfind) hm

theorem uniqueIds_modifyById_found {l : List Movement} {k : Option Int}
    {orig o2 : Movement} (hfind : findById l k = some orig)
    (hid : o2.id = orig.id) (hu : UniqueIds l) :
    UniqueIds (modifyById l k (fun _ => o2)) :=
  uniqueIds_of_map_id (map_id_modifyById_found hfind hid).symm hu

theorem splitMovementE_found {l : List Movement} {oid : Option Int}
    {info : SplitInfo} {orig : Movement} (hfind : findById l oid = some orig) :
    splitMovementE l oid info =
      (Except.ok (some (getNextId l)),
        modifyById l oid (fun _ => splitMovementOrig2 orig info (getNextId l)) ++
          [splitMovementShared orig info oid (getNextId l)]) := by
  have hmap := map_id_modifyById_found hfind
    (show (splitMovementOrig2 orig info (getNextId l)).id = orig.id from rfl)
  have hex : idExists
      (modifyById l oid (fun _ => splitMovementOrig2 orig info (getNextId l)))
      (some (getNextId l)) = false := by
    rw [idExists_eq_of_map_id hmap]
    exact idExists_getNextId_false l
  have hex2 : idExists
      (modifyById l oid (fun _ => splitMovementOrig2 orig info (getNextId l)))
      (splitMovementShared orig info oid (getNextId l)).id = false := hex
  simp only [splitMovementE, hfind]
  rw [addMovement_ok hex2]

theorem splitRecatE_found {l : List Movement} {oid : Option Int}
    {info : SplitInfo} {orig : Movement} (hfind : findById l oid = some orig)
    (h1 : 0 < info.split_amount) (h2 : info.split_amount < orig.amount) :
    splitExpenseForRecategorizationE l oid info =
      (Except.ok (some (getNextId l)),
        modifyById l oid (fun _ => splitRecatOrig2 orig info (getNextId l)) ++
          [splitRecatNew orig info oid (getNextId l)]) := by
  have hmap := map_id_modifyById_found hfind
    (show (splitRecatOrig2 orig info (getNextId l)).id = orig.id from rfl)
  have hex : idExists
      (modifyById l oid (fun _ => splitRecatOrig2 orig info (getNextId l)))
      (some (getNextId l)) = false := by
    rw [idExists_eq_of_map_id hmap]
    exact idExists_getNextId_false l
  have hex2 : idExists
      (modifyById l oid (fun _ => splitRecatOrig2 orig info (getNextId l)))
      (splitRecatNew orig info oid (getNextId l)).id = false := hex
  have hcond : ¬ (orig.amount ≤ info.split_amount ∨ info.split_amount ≤ 0) := by
    push_neg
    exact ⟨not_le.mp (by simpa using not_le.mpr h2), not_le.mp (by simpa using not_le.mpr h1)⟩
  simp only [splitExpenseForRecategorizationE, hfind]
  rw [if_neg hcond, addMovement_ok hex2]

/-! ### Claim theorems -/

/-- Claim C2: a re-categorization split whose split amount violates
`0 < splitAmount < originalAmount` returns null, inserts no new movement,
and leaves the original movement and the rest of the ledger unchanged. -/
theorem c2_recat_split_rejects_invalid_amount (l : List Movement)
    (oid : Option Int) (info : SplitInfo) (orig : Movement)
    (hfind : findById l oid = some orig)
    (hbad : info.split_amount ≤ 0 ∨ orig.amount ≤ info.split_amount) :
    splitExpenseForRecategorizationE l oid info = (Except.ok none, l) := by
  simp only [splitExpenseForRecategorizationE, hfind]
  rw [if_pos hbad.symm]

theorem c2_witness :
    findById [mvB] (some 1) = some mvB ∧
    splitExpenseForRecategorizationE [mvB] (some 1) infoB = (Except.ok none, [mvB]) :=
  ⟨by decide,
    c2_recat_split_rejects_invalid_amount [mvB] (some 1) infoB mvB (by decide)
      (Or.inr (by norm_num [mvB, infoB]))⟩

/-- Claim C4 (code bug): the repair pass is supposed to attempt a repair on
every movement with a failed-conversion field and report counts without a
per-movement failure aborting it, and a per-movement failure indeed yields
a counted failure with the row untouched (second conjunct); but on any
movement whose repair would succeed, `fixMovementCurrencyConversion` reads
the undefined variable `sheetRowIndex` (Database.js 593) and the resulting
ReferenceError aborts the whole pass (first conjunct). -/
theorem c4_repair_pass_aborts_on_success :
    fixAllFailedCurrencyConversionsE conv0 [mBad4] = Except.error () ∧
    fixAllFailedCurrencyConversionsE conv0 [mInv4] =
      Except.ok (0, 1, [mInv4]) :=
  ⟨rfl, rfl⟩

/-- Claim C5: `addMovement` throws on a duplicate id leaving the store
unchanged, appends otherwise, preserves id-uniqueness, and is the single
enforcement point through which the batch insert and both split operations
go, so each of those also preserves id-uniqueness. -/
theorem c5_duplicate_id_enforcement (l : List Movement) (m : Movement) :
    (idExists l m.id = true →
      addMovement l m =
        Except.error "Movement ID already exists in the database.") ∧
    (idExists l m.id = false →
      addMovement l m = Except.ok (l ++ [m]) ∧
        (UniqueIds l → UniqueIds (l ++ [m]))) ∧
    (∀ (k : Option Int) (info : SplitInfo),
      UniqueIds l → UniqueIds (splitMovementE l k info).2) ∧
    (∀ (k : Option Int) (info : SplitInfo),
      UniqueIds l → UniqueIds (splitExpenseForRecategorizationE l k info).2) ∧
    (∀ items : List BatchItem,
      UniqueIds l → UniqueIds (addMovementsBatchE l items).2) := by
  refine ⟨?_, ?_, ?_, ?_, ?_⟩
  · intro h
    simp [addMovement, h]
  · intro h
    exact ⟨addMovement_ok h, fun hu => uniqueIds_append hu h⟩
  · intro k info hu
    cases hfind : findById l k with
    | none =>
      simp only [splitMovementE, hfind]
      exact hu
    | some orig =>
      rw [splitMovementE_found hfind]
      have hmap := map_id_modifyById_found hfind
        (show (splitMovementOrig2 orig info (getNextId l)).id = orig.id from rfl)
      have hu2 := uniqueIds_of_map_id hmap.symm hu
      refine uniqueIds_append hu2 ?_
      show idExists _ (some (getNextId l)) = false
      rw [idExists_eq_of_map_id hmap]
      exact idExists_getNextId_false l
  · intro k info hu
    cases hfind : findById l k with
    | none =>
      simp only [splitExpenseForRecategorizationE, hfind]
      exact hu
    | some orig =>
      by_cases hbad : orig.amount ≤ info.split_amount ∨ info.split_amount ≤ 0
      · simp only [splitExpenseForRecategorizationE, hfind]
        rw [if_pos hbad]
        exact hu
      · push_neg at hbad
        rw [splitRecatE_found hfind hbad.2 hbad.1]
        have hmap := map_id_modifyById_found hfind
          (show (splitRecatOrig2 orig info (getNextId l)).id = orig.id from rfl)
        have hu2 := uniqueIds_of_map_id hmap.symm hu
        refine uniqueIds_append hu2 ?_
        show idExists _ (some (getNextId l)) = false
        rw [idExists_eq_of_map_id hmap]
        exact idExists_getNextId_false l
  · intro items hu
    exact addBatchSorted_uniqueIds hu

theorem c5_witness :
    idExists [mvA] mvA.id = true ∧
    addMovement [mvA] mvA =
      Except.error "Movement ID already exists in the database." ∧
    idExists [mvA] mvB.id = true ∧
    UniqueIds (splitMovementE [mvA] (some 1) infoA).2 :=
  ⟨by decide, (c5_duplicate_id_enforcement [mvA] mvA).1 (by decide), by decide,
    (c5_duplicate_id_enforcement [mvA] mvA).2.2.1 (some 1) infoA (by decide)⟩

/-- Claim C8 (amended): `getNextId` returns `max(existing numeric ids) + 1`
(1 on an empty ledger), which is an unused id strictly greater than every
existing id — though not in general the smallest unused id — and it is a
pure function of the current store contents; inserting a row carrying the
returned id makes the next computed id strictly larger, so ids assigned
across a run never repeat. -/
theorem c8_next_id_properties (l : List Movement) :
    (l = [] → getNextId l = 1) ∧
    (∀ m ∈ l, ∀ i : Int, m.id = some i → i < getNextId l) ∧
    idExists l (some (getNextId l)) = false ∧
    (∀ m : Movement, m.id = some (getNextId l) →
      getNextId (l ++ [m]) = getNextId l + 1) := by
  refine ⟨?_, ?_, idExists_getNextId_false l, ?_⟩
  · intro h
    subst h
    rfl
  · intro m hm i hid
    exact id_lt_getNextId hm hid
  · intro m hid
    exact getNextId_snoc hid

/-- Claim C8, counterexample to the claim as stated: on a ledger holding
ids 1 and 5, `getNextId` returns 6 although 2 is unused, so the returned
value is not the smallest unused id. -/
theorem c8_counterexample :
    getNextId gap8 = 6 ∧ idExists gap8 (some 2) = false ∧ (2 : Int) < 6 := by
  decide

theorem c8_witness :
    (3 : Int) < getNextId led8 ∧
    idExists led8 (some (getNextId led8)) = false :=
  ⟨(c8_next_id_properties led8).2.1 { mv0 with id := some 3 } (by decide) 3
      (by decide),
    (c8_next_id_properties led8).2.2.1⟩

/-- Claim C6 (amended): `addMovementsBatch` inserts the batch in ascending
order of the numeric timestamp key, where a missing (falsy) timestamp is
keyed as 0 (the epoch) — so missing-timestamp rows sort before all
post-epoch timestamps but after pre-epoch ones; the insertion sequence is a
stable-sorted permutation of the batch, and when the batch ids are fresh
the rows are appended in exactly that sorted order. -/
theorem c6_batch_sorted_insertion (l : List Movement) (items : List BatchItem) :
    List.Sorted tsLe (List.insertionSort tsLe items) ∧
    (List.insertionSort tsLe items).Perm items ∧
    (BatchFresh l items →
      addMovementsBatchE l items =
        (Except.ok (),
          l ++ (List.insertionSort tsLe items).map (fun it => it.row))) :=
  ⟨List.sorted_insertionSort tsLe items, List.perm_insertionSort tsLe items,
    fun h => addMovementsBatchE_ok h⟩

/-- Claim C6, counterexample to the claim as stated: a row with a missing
timestamp (keyed 0) is inserted after a row whose timestamp parses to a
pre-epoch instant, so missing-timestamp movements do not sort before all
movements with a parsable timestamp. -/
theorem c6_counterexample :
    itemMiss6.ts = none ∧ itemPre6.ts = some (-86400000) ∧
    addMovementsBatchE [] [itemMiss6, itemPre6] =
      (Except.ok (), [itemPre6.row, itemMiss6.row]) ∧
    itemPre6.row ≠ itemMiss6.row := by
  refine ⟨rfl, rfl, ?_, by decide⟩
  rfl

theorem c6_witness :
    BatchFresh [] items6w ∧
    addMovementsBatchE [] items6w =
      (Except.ok (), (List.insertionSort tsLe items6w).map (fun it => it.row)) :=
  ⟨by decide, by
    have h := (c6_batch_sorted_insertion [] items6w).2.2 (by decide)
    simpa using h⟩

/-- Per-operation preservation of the data-model invariant, under the side
conditions of `Pre`. -/
theorem inv_applyOp (conv : ℚ → Option String → Option QTriple) (op : DbOp)
    (l : List Movement) (hi : Inv l) (hp : Pre op l) :
    Inv (applyOp conv op l) := by
  cases op with
  | add m =>
    simp only [applyOp]
    cases hex : idExists l m.id
    · rw [addMovement_ok hex]
      exact inv_append hi hp
    · simp only [addMovement, hex]
      simp
      exact hi
  | addBatch items =>
    simp only [applyOp, addMovementsBatchE]
    refine addBatchSorted_inv ?_ hi
    intro it hit
    exact hp it ((List.perm_insertionSort tsLe items).mem_iff.mp hit)
  | updCategory key c =>
    exact inv_modifyById (fun m hm => hm) hi
  | updAnalysis key ar =>
    refine inv_modifyById ?_ hi
    intro m hm
    dsimp only
    split
    · exact hm
    · exact hm
  | updStatus key s =>
    exact inv_modifyById (fun m hm => hm) hi
  | updSettledId key sid =>
    exact inv_modifyById (fun m hm => hm) hi
  | updSplitwise key sw =>
    exact inv_modifyById (fun m hm => hm) hi
  | splitShared key info =>
    simp only [applyOp]
    cases hfind : findById l key with
    | none =>
      simp only [splitMovementE, hfind]
      exact hi
    | some orig =>
      have hbound := hp orig hfind
      have horig : MovOk orig := hi orig (findById_mem hfind)
      have ho2 : MovOk (splitMovementOrig2 orig info (getNextId l)) :=
        ⟨hbound.1, horig.2⟩
      have hshared : MovOk (splitMovementShared orig info key (getNextId l)) :=
        ⟨by
          show 0 ≤ orig.amount - info.split_amount
          have := hbound.2
          linarith, horig.2⟩
      rw [splitMovementE_found hfind]
      exact inv_append (inv_modifyById_const ho2 hi) hshared
  | splitRecat key info =>
    simp only [applyOp]
    cases hfind : findById l key with
    | none =>
      simp only [splitExpenseForRecategorizationE, hfind]
      exact hi
    | some orig =>
      by_cases hbad : orig.amount ≤ info.split_amount ∨ info.split_amount ≤ 0
      · simp only [splitExpenseForRecategorizationE, hfind]
        rw [if_pos hbad]
        exact hi
      · push_neg at hbad
        have horig : MovOk orig := hi orig (findById_mem hfind)
        have ho2 : MovOk (splitRecatOrig2 orig info (getNextId l)) :=
          ⟨by
            show 0 ≤ orig.amount - info.split_amount
            have := hbad.1
            linarith, horig.2⟩
        have hnew : MovOk (splitRecatNew orig info key (getNextId l)) :=
          ⟨le_of_lt hbad.2, horig.2⟩
        rw [splitRecatE_found hfind hbad.2 hbad.1]
        exact inv_append (inv_modifyById_const ho2 hi) hnew
  | settle matcher rid rep =>
    simp only [applyOp, processDebitRepaymentSettlement,
      updateMovementStatus, updateMovementSettledId]
    split
    · exact hi
    · split
      · exact hi
      · split
        · exact hi
        · split
          · exact hi
          · split
            · exact inv_modifyById (fun m hm => hm)
                (inv_modifyById (fun m hm => hm) hi)
            · exact inv_modifyById (fun m hm => hm) hi
  | fixConv key =>
    simp only [applyOp]
    cases h : fixMovementCurrencyConversionE conv l key with
    | error e => exact hi
    | ok r =>
      have hr : r.2 = l := by
        unfold fixMovementCurrencyConversionE at h
        split at h
        · cases h; rfl
        · split at h
          · cases h; rfl
          · split at h
            · cases h; rfl
            · split at h
              · cases h; rfl
              · cases h
      show Inv r.2
      rw [hr]
      exact hi

/-- Claim C7 (amended): starting from a ledger satisfying the data-model
invariant (no negative amount, no unset currency), any sequence of store
operations preserves it provided every inserted row satisfies the
invariant and every shared-expense split amount lies within the original
amount; the shared-expense split performs no validation of its own, so
without that side condition it can produce a negative-amount movement. -/
theorem c7_invariant_preserved (conv : ℚ → Option String → Option QTriple) :
    ∀ (ops : List DbOp) (l : List Movement),
      Inv l → PreAll conv ops l → Inv (applyAll conv ops l) := by
  intro ops
  induction ops with
  | nil =>
    intro l hi _
    exact hi
  | cons op rest ih =>
    intro l hi hp
    exact ih _ (inv_applyOp conv op l hi hp.1) hp.2

/-- Claim C7, counterexample to the claim as stated: from an invariant-
satisfying ledger, a shared-expense split with `split_amount = 150` against
an original amount of 100 produces a movement of amount -50. -/
theorem c7_counterexample :
    Inv [mOrig7] ∧
    ∃ m ∈ applyOp conv0 (DbOp.splitShared (some 1) badInfo7) [mOrig7],
      m.amount < 0 := by
  refine ⟨by decide, ?_⟩
  refine ⟨splitMovementShared mOrig7 badInfo7 (some 1) (getNextId [mOrig7]),
    ?_, ?_⟩
  · have heq : applyOp conv0 (DbOp.splitShared (some 1) badInfo7) [mOrig7] =
        modifyById [mOrig7] (some 1)
            (fun _ => splitMovementOrig2 mOrig7 badInfo7 (getNextId [mOrig7])) ++
          [splitMovementShared mOrig7 badInfo7 (some 1) (getNextId [mOrig7])] := by
      show (splitMovementE [mOrig7] (some 1) badInfo7).2 = _
      rw [splitMovementE_found (show findById [mOrig7] (some 1) = some mOrig7 from rfl)]
    rw [heq]
    exact List.mem_append_right _ (List.mem_singleton.mpr rfl)
  · show mOrig7.amount - badInfo7.split_amount < 0
    norm_num [mOrig7, badInfo7, mv0]

theorem conservesCell_splitCurrencyValue {A s : ℚ} (hA : A ≠ 0)
    (v : CellValue) :
    ConservesCell v (splitCurrencyValue A s v) (splitCurrencyValue A (A - s) v)
      A s := by
  intro q hq
  subst hq
  refine ⟨rfl, rfl, q * (s / A), q * ((A - s) / A), rfl, rfl, ?_⟩
  field_simp
  ring

theorem conservesCell_splitCurrencyValue2 {A s : ℚ} (hA : A ≠ 0)
    (v : CellValue) :
    ConservesCell v (splitCurrencyValue A (A - s) v) (splitCurrencyValue A s v)
      A (A - s) := by
  have h : A - (A - s) = s := by ring
  have h2 := @conservesCell_splitCurrencyValue A (A - s) hA v
  rw [h] at h2
  exact h2

/-- Claim C1: both splits conserve the amount (the halves are `s` and
`A - s`, summing to `A`) and each currency-value field (the halves carry
the original value scaled by `s / A` and `(A - s) / A`, summing to the
original value — a proportional split, not a reconversion). -/
theorem c1_split_conservation (l : List Movement) (oid : Option Int)
    (info : SplitInfo) (orig : Movement)
    (hfind : findById l oid = some orig) :
    (orig.amount ≠ 0 →
      ∃ l2 m1 m2,
        splitMovementE l oid info = (Except.ok (some (getNextId l)), l2) ∧
        findById l2 oid = some m1 ∧ l2.getLast? = some m2 ∧
        m1.amount = info.split_amount ∧
        m2.amount = orig.amount - info.split_amount ∧
        m1.amount + m2.amount = orig.amount ∧
        ConservesCell orig.clp_value m1.clp_value m2.clp_value
          orig.amount info.split_amount ∧
        ConservesCell orig.usd_value m1.usd_value m2.usd_value
          orig.amount info.split_amount ∧
        ConservesCell orig.gbp_value m1.gbp_value m2.gbp_value
          orig.amount info.split_amount) ∧
    (0 < info.split_amount → info.split_amount < orig.amount →
      ∃ l2 m1 m2,
        splitExpenseForRecategorizationE l oid info =
          (Except.ok (some (getNextId l)), l2) ∧
        findById l2 oid = some m1 ∧ l2.getLast? = some m2 ∧
        m1.amount = orig.amount - info.split_amount ∧
        m2.amount = info.split_amount ∧
        m1.amount + m2.amount = orig.amount ∧
        ConservesCell orig.clp_value m1.clp_value m2.clp_value
          orig.amount (orig.amount - info.split_amount) ∧
        ConservesCell orig.usd_value m1.usd_value m2.usd_value
          orig.amount (orig.amount - info.split_amount) ∧
        ConservesCell orig.gbp_value m1.gbp_value m2.gbp_value
          orig.amount (orig.amount - info.split_amount)) := by
  constructor
  · intro hA
    refine ⟨_, splitMovementOrig2 orig info (getNextId l),
      splitMovementShared orig info oid (getNextId l),
      splitMovementE_found hfind, ?_, ?_, rfl, rfl, ?_, ?_, ?_, ?_⟩
    · have hm : idMatches orig.id oid = true := findById_matches hfind
      exact find?_append_left
        (@findById_modifyById_self l oid
          (fun _ => splitMovementOrig2 orig info (getNextId l)) orig hfind hm)
    · exact List.getLast?_concat _
    · show info.split_amount + (orig.amount - info.split_amount) = orig.amount
      ring
    · exact conservesCell_splitCurrencyValue hA orig.clp_value
    · exact conservesCell_splitCurrencyValue hA orig.usd_value
    · exact conservesCell_splitCurrencyValue hA orig.gbp_value
  · intro h1 h2
    have hA : orig.amount ≠ 0 := by
      intro h
      rw [h] at h2
      exact absurd (lt_trans h1 h2) (lt_irrefl 0)
    refine ⟨_, splitRecatOrig2 orig info (getNextId l),
      splitRecatNew orig info oid (getNextId l),
      splitRecatE_found hfind h1 h2, ?_, ?_, rfl, rfl, ?_, ?_, ?_, ?_⟩
    · have hm : idMatches orig.id oid = true := findById_matches hfind
      exact find?_append_left
        (@findById_modifyById_self l oid
          (fun _ => splitRecatOrig2 orig info (getNextId l)) orig hfind hm)
    · exact List.getLast?_concat _
    · show (orig.amount - info.split_amount) + info.split_amount = orig.amount
      ring
    · exact conservesCell_splitCurrencyValue2 hA orig.clp_value
    · exact conservesCell_splitCurrencyValue2 hA orig.usd_value
    · exact conservesCell_splitCurrencyValue2 hA orig.gbp_value

theorem c1_witness :
    mvA.amount ≠ 0 ∧
    ∃ l2 m1 m2,
      splitMovementE [mvA] (some 1) infoA =
        (Except.ok (some (getNextId [mvA])), l2) ∧
      findById l2 (some 1) = some m1 ∧ l2.getLast? = some m2 ∧
      m1.amount = infoA.split_amount ∧
      m2.amount = mvA.amount - infoA.split_amount ∧
      m1.amount + m2.amount = mvA.amount ∧
      ConservesCell mvA.clp_value m1.clp_value m2.clp_value
        mvA.amount infoA.split_amount ∧
      ConservesCell mvA.usd_value m1.usd_value m2.usd_value
        mvA.amount infoA.split_amount ∧
      ConservesCell mvA.gbp_value m1.gbp_value m2.gbp_value
        mvA.amount infoA.split_amount :=
  ⟨by norm_num [mvA, mv0],
    (c1_split_conservation [mvA] (some 1) infoA mvA (by decide)).1
      (by norm_num [mvA, mv0])⟩

theorem findById_updateMovementStatus_ne {l : List Movement}
    {k k' : Option Int} {s : Option String} (hne : k ≠ k') :
    findById (updateMovementStatus l k s) k' = findById l k' := by
  rw [updateMovementStatus]
  exact findById_modifyById_ne (fun m => rfl) hne

theorem findById_updateMovementStatus_self {l : List Movement}
    {k : Option Int} {s : Option String} :
    findById (updateMovementStatus l k s) k =
      (findById l k).map (fun m => { m with status := s }) := by
  rw [updateMovementStatus]
  exact findById_modifyById_of_preserve (fun m => rfl)

theorem findById_updateMovementSettledId_ne {l : List Movement}
    {k k' : Option Int} {sid : Int} (hne : k ≠ k') :
    findById (updateMovementSettledId l k sid) k' = findById l k' := by
  rw [updateMovementSettledId]
  exact findById_modifyById_ne (fun m => rfl) hne

theorem findById_updateMovementSettledId_self {l : List Movement}
    {k : Option Int} {sid : Int} :
    findById (updateMovementSettledId l k sid) k =
      (findById l k).map (fun m => { m with settled_movement_id := some sid }) := by
  rw [updateMovementSettledId]
  exact findById_modifyById_of_preserve (fun m => rfl)

/-- Claim C3: whenever the matcher selects an id present among the pending
debits, the repayment's `settled_movement_id` is recorded regardless of the
amount ratio; the matched debit transitions to Settled exactly when
`repaymentAmount / debitAmount >= 0.95`; below that threshold — covering
both the [0.50, 0.95) band and the band below 0.50, which differ only in
what is logged — the debit row is left unchanged with its status still
`pending_direct_settlement`. -/
theorem c3_settlement_thresholds
    (matcher : Movement → List Movement → Option Int) (l : List Movement)
    (rid : Option Int) (rep : Movement) (mid : Int) (debit : Movement)
    (h1 : matcher rep (getMovementsPendingDirectSettlement l) = some mid)
    (h2 : mid ≠ 0)
    (h3 : (getMovementsPendingDirectSettlement l).find?
        (fun d => idMatches d.id (some mid)) = some debit)
    (hpos : 0 < debit.amount)
    (h5 : rid ≠ some mid)
    (h6 : findById l (some mid) = some debit) :
    findById (processDebitRepaymentSettlement matcher l rid rep) rid =
      (findById l rid).map
        (fun m => { m with settled_movement_id := some mid }) ∧
    (95 / 100 ≤ rep.amount / debit.amount →
      findById (processDebitRepaymentSettlement matcher l rid rep) (some mid) =
        some { debit with status := some STATUS_SETTLED }) ∧
    (rep.amount / debit.amount < 95 / 100 →
      findById (processDebitRepaymentSettlement matcher l rid rep) (some mid) =
        some debit ∧ debit.status = some STATUS_PENDING) := by
  have hne : (getMovementsPendingDirectSettlement l).isEmpty = false := by
    cases hp : getMovementsPendingDirectSettlement l with
    | nil =>
      rw [hp] at h3
      simp [List.find?] at h3
    | cons a t => rfl
  have hres : processDebitRepaymentSettlement matcher l rid rep =
      (if 95 ≤ rep.amount / debit.amount * 100 then
        updateMovementStatus (updateMovementSettledId l rid mid) (some mid)
          (some STATUS_SETTLED)
      else updateMovementSettledId l rid mid) := by
    simp only [processDebitRepaymentSettlement, hne, Bool.false_eq_true,
      if_false, h1, h3]
    rw [if_neg h2]
  have hiff : (95 ≤ rep.amount / debit.amount * 100) ↔
      (95 / 100 ≤ rep.amount / debit.amount) := by
    constructor <;> intro h <;> linarith
  have hstatus : debit.status = some STATUS_PENDING := by
    have hdm := List.mem_of_find?_eq_some h3
    have hfil := (List.mem_filter.mp hdm).2
    simp at hfil
    exact hfil.2
  refine ⟨?_, ?_, ?_⟩
  · rw [hres]
    by_cases hc : 95 ≤ rep.amount / debit.amount * 100
    · rw [if_pos hc, findById_updateMovementStatus_ne (Ne.symm h5)]
      exact findById_updateMovementSettledId_self
    · rw [if_neg hc]
      exact findById_updateMovementSettledId_self
  · intro hge
    rw [hres, if_pos (hiff.mpr hge), findById_updateMovementStatus_self,
      findById_updateMovementSettledId_ne h5, h6]
    rfl
  · intro hlt
    have hc : ¬ (95 ≤ rep.amount / debit.amount * 100) := by
      intro h
      exact absurd (hiff.mp h) (not_le.mpr hlt)
    rw [hres, if_neg hc, findById_updateMovementSettledId_ne h5, h6]
    exact ⟨rfl, hstatus⟩

theorem c3_witness :
    matcherC repC (getMovementsPendingDirectSettlement [repC, debitC]) =
      some 2 ∧
    (95 : ℚ) / 100 ≤ repC.amount / debitC.amount ∧
    findById (processDebitRepaymentSettlement matcherC [repC, debitC]
        (some 1) repC) (some 1) =
      some { repC with settled_movement_id := some 2 } ∧
    findById (processDebitRepaymentSettlement matcherC [repC, debitC]
        (some 1) repC) (some 2) =
      some { debitC with status := some STATUS_SETTLED } := by
  have h := c3_settlement_thresholds matcherC [repC, debitC] (some 1) repC 2
    debitC rfl (by decide) (by decide) (by norm_num [debitC, mv0]) (by decide)
    (by decide)
  have hge : (95 : ℚ) / 100 ≤ repC.amount / debitC.amount := by
    norm_num [repC, debitC, mv0]
  refine ⟨rfl, hge, ?_, h.2.1 hge⟩
  have h1 := h.1
  rw [show findById [repC, debitC] (some 1) = some repC from by decide] at h1
  exact h1

/-! ### Monzo ingestion idempotency -/

theorem createMonzoRow_id (conv : ℚ → Option String → Option QTriple)
    (tx : MonzoTx) (n : Int) :
    (createMonzoMovementRow conv tx n).id = some n := rfl

theorem createMonzoRow_source (conv : ℚ → Option String → Option QTriple)
    (tx : MonzoTx) (n : Int) :
    (createMonzoMovementRow conv tx n).source = some SOURCE_MONZO := rfl

theorem createMonzoRow_source_id (conv : ℚ → Option String → Option QTriple)
    (tx : MonzoTx) (n : Int) :
    (createMonzoMovementRow conv tx n).source_id = some tx.txId := rfl

theorem mem_buildMonzoBatch_id (conv : ℚ → Option String → Option QTriple) :
    ∀ (txs : List MonzoTx) (n : Int) (it : BatchItem),
      it ∈ buildMonzoBatch conv txs n → ∃ x : Int, it.row.id = some x ∧ n ≤ x := by
  intro txs
  induction txs with
  | nil =>
    intro n it h
    cases h
  | cons tx rest ih =>
    intro n it h
    rcases List.mem_cons.mp h with h | h
    · subst h
      exact ⟨n, rfl, le_refl n⟩
    · rcases ih (n + 1) it h with ⟨x, hx, hge⟩
      exact ⟨x, hx, by omega⟩

theorem buildMonzoBatch_ids_nodup (conv : ℚ → Option String → Option QTriple) :
    ∀ (txs : List MonzoTx) (n : Int),
      (((buildMonzoBatch conv txs n).map (fun it => it.row)).filterMap
        (fun m => m.id)).Nodup := by
  intro txs
  induction txs with
  | nil => intro n; simp [buildMonzoBatch]
  | cons tx rest ih =>
    intro n
    have hid : (createMonzoMovementRow conv tx n).id = some n := rfl
    simp only [buildMonzoBatch, List.map_cons, List.filterMap_cons, hid]
    rw [List.nodup_cons]
    constructor
    · intro hmem
      rcases List.mem_filterMap.mp hmem with ⟨m, hm, hmid⟩
      rcases List.mem_map.mp hm with ⟨it, hit, rfl⟩
      rcases mem_buildMonzoBatch_id conv rest (n + 1) it hit with ⟨x, hx, hge⟩
      rw [hx] at hmid
      cases hmid
      omega
    · exact ih (n + 1)

theorem buildMonzoBatch_fresh (conv : ℚ → Option String → Option QTriple)
    (l : List Movement) (txs : List MonzoTx) :
    BatchFresh l (buildMonzoBatch conv txs (getNextId l)) := by
  constructor
  · exact buildMonzoBatch_ids_nodup conv txs (getNextId l)
  · intro it hit
    rcases mem_buildMonzoBatch_id conv txs (getNextId l) it hit with ⟨x, hx, hge⟩
    rw [hx]
    cases hex : idExists l (some x)
    · rfl
    · rcases idExists_some_iff.mp hex with ⟨m, hm, hid⟩
      have := id_lt_getNextId hm hid
      omega

theorem countMonzoKey_cons (m : Movement) (l : List Movement) (t : String) :
    countMonzoKey (m :: l) t =
      (if (m.source == some SOURCE_MONZO && m.source_id == some t) = true
        then 1 else 0) + countMonzoKey l t := by
  simp only [countMonzoKey, List.filter_cons]
  split
  · simp [Nat.add_comm]
  · simp

theorem countMonzoKey_append (l1 l2 : List Movement) (t : String) :
    countMonzoKey (l1 ++ l2) t = countMonzoKey l1 t + countMonzoKey l2 t := by
  simp [countMonzoKey, List.filter_append]

theorem countMonzoKey_perm {l1 l2 : List Movement} (h : l1.Perm l2)
    (t : String) : countMonzoKey l1 t = countMonzoKey l2 t :=
  (h.filter _).length_eq

theorem countMonzoKey_buildRows (conv : ℚ → Option String → Option QTriple)
    (t : String) : ∀ (txs : List MonzoTx) (n : Int),
      countMonzoKey ((buildMonzoBatch conv txs n).map (fun it => it.row)) t =
        (txs.filter (fun tx => tx.txId == t)).length := by
  intro txs
  induction txs with
  | nil => intro n; rfl
  | cons tx rest ih =>
    intro n
    have hpred : ((createMonzoMovementRow conv tx n).source == some SOURCE_MONZO &&
        (createMonzoMovementRow conv tx n).source_id == some t) = (tx.txId == t) := by
      rw [createMonzoRow_source, createMonzoRow_source_id]
      simp
    show countMonzoKey (createMonzoMovementRow conv tx n ::
        (buildMonzoBatch conv rest (n + 1)).map (fun it => it.row)) t = _
    rw [countMonzoKey_cons, hpred, ih (n + 1), List.filter_cons]
    by_cases hc : (tx.txId == t) = true
    · simp [hc]
      omega
    · simp only [hc, Bool.false_eq_true, if_false]
      simp

theorem countMonzoKey_pos_iff {l : List Movement} {t : String} :
    0 < countMonzoKey l t ↔
      ∃ m ∈ l, m.source = some SOURCE_MONZO ∧ m.source_id = some t := by
  induction l with
  | nil => simp [countMonzoKey]
  | cons m rest ih =>
    rw [countMonzoKey_cons]
    by_cases hc : (m.source == some SOURCE_MONZO && m.source_id == some t) = true
    · simp only [hc, if_true]
      simp only [Bool.and_eq_true, beq_iff_eq] at hc
      constructor
      · intro _
        exact ⟨m, List.mem_cons_self _ _, hc.1, hc.2⟩
      · intro _
        omega
    · rw [if_neg hc, Nat.zero_add, ih]
      constructor
      · rintro ⟨x, hx, hx1, hx2⟩
        exact ⟨x, List.mem_cons_of_mem _ hx, hx1, hx2⟩
      · rintro ⟨x, hx, hx1, hx2⟩
        rcases List.mem_cons.mp hx with rfl | hx
        · exact absurd (by simp [hx1, hx2]) hc
        · exact ⟨x, hx, hx1, hx2⟩

theorem contains_existingMonzo_iff {l : List Movement} {t : String}
    (ht : t ≠ "") :
    (getExistingSourceIds l (some SOURCE_MONZO)).contains t = true ↔
      0 < countMonzoKey l t := by
  have hc : (getExistingSourceIds l (some SOURCE_MONZO)).contains t = true ↔
      t ∈ getExistingSourceIds l (some SOURCE_MONZO) := List.elem_iff
  rw [hc, countMonzoKey_pos_iff]
  simp only [getExistingSourceIds, List.mem_filterMap]
  constructor
  · rintro ⟨m, hm, hcond⟩
    by_cases hif : (m.source == some SOURCE_MONZO && truthyStr m.source_id) = true
    · rw [if_pos hif] at hcond
      simp only [Bool.and_eq_true, beq_iff_eq] at hif
      exact ⟨m, hm, hif.1, hcond⟩
    · rw [if_neg hif] at hcond
      cases hcond
  · rintro ⟨m, hm, h1, h2⟩
    refine ⟨m, hm, ?_⟩
    have hif : (m.source == some SOURCE_MONZO && truthyStr m.source_id) = true := by
      simp [h1, h2, truthyStr, ht]
    rw [if_pos hif]
    exact h2

theorem processMonzo_eq (conv : ℚ → Option String → Option QTriple)
    (l : List Movement) (txs : List MonzoTx) :
    processMonzoTransactions conv l txs =
      l ++ (List.insertionSort tsLe (buildMonzoBatch conv
          (txs.filter (fun tx =>
            ! (getExistingSourceIds l (some SOURCE_MONZO)).contains tx.txId))
          (getNextId l))).map (fun it => it.row) := by
  unfold processMonzoTransactions
  by_cases hnew : (txs.filter (fun tx =>
      ! (getExistingSourceIds l (some SOURCE_MONZO)).contains tx.txId)).isEmpty = true
  · rw [if_pos hnew]
    rw [List.isEmpty_iff] at hnew
    rw [hnew]
    simp [buildMonzoBatch]
  · rw [if_neg hnew,
      addMovementsBatchE_ok (buildMonzoBatch_fresh conv l _)]

theorem countMonzo_after (conv : ℚ → Option String → Option QTriple)
    (l : List Movement) (txs : List MonzoTx) (t : String) :
    countMonzoKey (processMonzoTransactions conv l txs) t =
      countMonzoKey l t +
        ((txs.filter (fun tx =>
            ! (getExistingSourceIds l (some SOURCE_MONZO)).contains tx.txId)).filter
          (fun tx => tx.txId == t)).length := by
  rw [processMonzo_eq, countMonzoKey_append]
  congr 1
  rw [countMonzoKey_perm
    (((List.perm_insertionSort tsLe _).map (fun it => it.row))) t]
  exact countMonzoKey_buildRows conv t _ _

theorem monzo_noop_of_pos (conv : ℚ → Option String → Option QTriple)
    (l : List Movement) (txs : List MonzoTx) (t : String) (ht : t ≠ "")
    (hpos : 0 < countMonzoKey l t) :
    countMonzoKey (processMonzoTransactions conv l txs) t = countMonzoKey l t := by
  rw [countMonzo_after]
  have hnil : ((txs.filter (fun tx =>
      ! (getExistingSourceIds l (some SOURCE_MONZO)).contains tx.txId)).filter
        (fun tx => tx.txId == t)) = [] := by
    rw [List.filter_eq_nil_iff]
    intro tx htx hbeq
    have ht2 : tx.txId = t := by simpa using hbeq
    have hmem := List.mem_filter.mp htx
    have hcon : (getExistingSourceIds l (some SOURCE_MONZO)).contains tx.txId = false := by
      have := hmem.2
      cases hx : (getExistingSourceIds l (some SOURCE_MONZO)).contains tx.txId
      · rfl
      · rw [hx] at this
        cases this
    rw [ht2] at hcon
    rw [(contains_existingMonzo_iff ht).mpr hpos] at hcon
    cases hcon
  rw [hnil]
  rfl

/-- Claim C9: Monzo ingestion is idempotent on the `(source, source_id)`
key: when a movement with the key already exists, re-ingestion inserts
nothing with that key; when none exists and the batch carries the record
exactly once, ingestion leaves exactly one movement with the key; and
running the pipeline twice with the same transaction list leaves the count
of movements with the key unchanged on the second run. -/
theorem c9_monzo_ingestion_idempotent
    (conv : ℚ → Option String → Option QTriple) (l : List Movement)
    (txs : List MonzoTx) (t : String) (ht : t ≠ "") :
    (0 < countMonzoKey l t →
      countMonzoKey (processMonzoTransactions conv l txs) t =
        countMonzoKey l t) ∧
    (countMonzoKey l t = 0 →
      (txs.filter (fun tx => tx.txId == t)).length = 1 →
      countMonzoKey (processMonzoTransactions conv l txs) t = 1) ∧
    countMonzoKey
        (processMonzoTransactions conv (processMonzoTransactions conv l txs) txs)
        t =
      countMonzoKey (processMonzoTransactions conv l txs) t := by
  refine ⟨monzo_noop_of_pos conv l txs t ht, ?_, ?_⟩
  · intro h0 h1
    have hcon : (getExistingSourceIds l (some SOURCE_MONZO)).contains t = false := by
      cases hx : (getExistingSourceIds l (some SOURCE_MONZO)).contains t
      · rfl
      · have := (contains_existingMonzo_iff ht).mp hx
        omega
    rw [countMonzo_after, h0, Nat.zero_add]
    rw [List.filter_filter]
    rw [List.filter_congr ?_]
    · exact h1
    · intro tx htx
      by_cases hb : (tx.txId == t) = true
      · have ht2 : tx.txId = t := by simpa using hb
        rw [hb, ht2, hcon]
        rfl
      · have hb' : (tx.txId == t) = false := by simpa using hb
        rw [hb']
        rfl
  · by_cases hpos1 : 0 < countMonzoKey (processMonzoTransactions conv l txs) t
    · exact monzo_noop_of_pos conv _ txs t ht hpos1
    · have h0 : countMonzoKey (processMonzoTransactions conv l txs) t = 0 := by
        omega
      rw [countMonzo_after _ (processMonzoTransactions conv l txs) txs t, h0]
      have hcl : countMonzoKey l t = 0 ∧
          ((txs.filter (fun tx =>
              ! (getExistingSourceIds l (some SOURCE_MONZO)).contains tx.txId)).filter
            (fun tx => tx.txId == t)).length = 0 := by
        have := countMonzo_after conv l txs t
        rw [h0] at this
        omega
      have hnil2 : ((txs.filter (fun tx =>
          ! (getExistingSourceIds (processMonzoTransactions conv l txs)
              (some SOURCE_MONZO)).contains tx.txId)).filter
            (fun tx => tx.txId == t)) = [] := by
        rw [List.filter_eq_nil_iff]
        intro tx htx hbeq
        have ht2 : tx.txId = t := by simpa using hbeq
        have htx2 := (List.mem_filter.mp htx).1
        have hconl : (getExistingSourceIds l (some SOURCE_MONZO)).contains tx.txId = false := by
          cases hx : (getExistingSourceIds l (some SOURCE_MONZO)).contains tx.txId
          · rfl
          · rw [ht2] at hx
            have := (contains_existingMonzo_iff ht).mp hx
            omega
        have hmem1 : tx ∈ (txs.filter (fun tx =>
            ! (getExistingSourceIds l (some SOURCE_MONZO)).contains tx.txId)).filter
              (fun tx => tx.txId == t) := by
          refine List.mem_filter.mpr ⟨List.mem_filter.mpr ⟨htx2, ?_⟩, hbeq⟩
          rw [hconl]
          rfl
        rw [List.length_eq_zero.mp hcl.2] at hmem1
        cases hmem1
      rw [hnil2]
      rfl

theorem c9_witness :
    ("tx1" : String) ≠ "" ∧
    countMonzoKey ([] : List Movement) "tx1" = 0 ∧
    countMonzoKey (processMonzoTransactions conv0 [] [tx9]) "tx1" = 1 :=
  ⟨by decide, rfl,
    (c9_monzo_ingestion_idempotent conv0 [] [tx9] "tx1" (by decide)).2.1 rfl
      (by decide)⟩

/-! ### Settlement gating -/

theorem settlementStep_attempted {matcher : Movement → List Movement → Option Int}
    {m : Movement} {stepRes : Except String Unit} {l2 : List Movement}
    (h : (settlementStep matcher m stepRes l2).2 = true) :
    m.mtype = some TYPE_DEBIT_REPAYMENT := by
  unfold settlementStep at h
  split at h
  · simp at h
  · split at h
    · next hcond => simpa using hcond
    · simp at h

theorem processOneMovement_attempted (analyze : Movement → Option Analysis)
    (matcher : Movement → List Movement → Option Int) (l : List Movement)
    (m : Movement)
    (h : (processOneMovement analyze matcher l m).2 = true) :
    m.mtype = some TYPE_DEBIT_REPAYMENT ∧ (analyze m).isSome = true := by
  unfold processOneMovement at h
  cases ha : analyze m with
  | none =>
    rw [ha] at h
    simp at h
  | some ar =>
    rw [ha] at h
    exact ⟨settlementStep_attempted h, rfl⟩

theorem processUncatGo_attempts (analyze : Movement → Option Analysis)
    (matcher : Movement → List Movement → Option Int) :
    ∀ (snapshot l : List Movement) (x : Movement),
      x ∈ (processUncatGo analyze matcher l snapshot).2 →
      x ∈ snapshot ∧ x.mtype = some TYPE_DEBIT_REPAYMENT ∧
        (analyze x).isSome = true := by
  intro snapshot
  induction snapshot with
  | nil =>
    intro l x hx
    simp [processUncatGo] at hx
  | cons m rest ih =>
    intro l x hx
    simp only [processUncatGo] at hx
    rcases List.mem_append.mp hx with h | h
    · by_cases hflag : (processOneMovement analyze matcher l m).2 = true
      · rw [if_pos hflag] at h
        rcases List.mem_singleton.mp h with rfl
        have hatt := processOneMovement_attempted analyze matcher l _ hflag
        exact ⟨List.mem_cons_self _ _, hatt⟩
      · rw [if_neg hflag] at h
        cases h
    · rcases ih _ x h with ⟨h1, h2, h3⟩
      exact ⟨List.mem_cons_of_mem _ h1, h2, h3⟩

/-- Claim C10: a movement is submitted to the settlement matcher during a
`processUncategorizedMovements` run only when it was selected for category
analysis (non-blank `user_description`, blank `category`), it is of type
`Debit Repayment`, and its classifier analysis produced a (validated,
non-discarded) result in that run. -/
theorem c10_settlement_gated_on_analysis (analyze : Movement → Option Analysis)
    (matcher : Movement → List Movement → Option Int) (l : List Movement)
    (m : Movement)
    (h : m ∈ (processUncategorizedMovements analyze matcher l).2) :
    m ∈ getMovementsNeedingCategoryAnalysis l ∧
    hasText m.user_description = true ∧ hasText m.category = false ∧
    m.mtype = some TYPE_DEBIT_REPAYMENT ∧ (analyze m).isSome = true := by
  have hx := processUncatGo_attempts analyze matcher
    (getMovementsNeedingCategoryAnalysis l) l m h
  have hmem := hx.1
  have hfil := (List.mem_filter.mp hmem).2
  simp only [Bool.and_eq_true] at hfil
  refine ⟨hmem, hfil.1, ?_, hx.2.1, hx.2.2⟩
  simpa using hfil.2

theorem c10_witness :
    rep10 ∈ (processUncategorizedMovements analyze10 matcher10 [rep10]).2 ∧
    rep10.mtype = some TYPE_DEBIT_REPAYMENT ∧
    (analyze10 rep10).isSome = true :=
  ⟨by decide,
    (c10_settlement_gated_on_analysis analyze10 matcher10 [rep10] rep10
      (by decide)).2.2.2⟩

theorem c7_witness : Inv (applyAll conv0 ops7 []) := by
  apply c7_invariant_preserved conv0 ops7 []
  · decide
  · refine ⟨?_, ?_, trivial⟩
    · show MovOk { mv0 with amount := 5, id := some 1 }
      decide
    · exact trivial

end ET
